import Mathlib

/-!
Verification development for the markdown→HTML transformation engine of the
research-report generator (scripts/generate_pdf.py).  The Python source is
shallowly embedded over `List Char`: each regex pass is translated to an
explicit character scanner with the same leftmost-match semantics, stateful
loops become folds, the filesystem is an explicit environment, and Python
dicts become association lists.
-/

set_option maxRecDepth 20000

abbrev Str := List Char

/-- Literal left brace character (written numerically). -/
def lbrace : Char := Char.ofNat 123

/-- Literal right brace character (written numerically). -/
def rbrace : Char := Char.ofNat 125

/-- Python `\s` / `str.strip` whitespace over the ASCII range:
space, tab, newline, carriage return, vertical tab, form feed. -/
def isPySpace (c : Char) : Bool :=
  c = ' ' || c = '\t' || c = '\n' || c = '\r' || c = Char.ofNat 11 || c = Char.ofNat 12

/-- Python `str.lower` on one character (ASCII case folding; the documents the
repository feeds this engine contain ASCII plus Japanese, which has no case). -/
def pyLower (c : Char) : Char :=
  if 'A' ≤ c && c ≤ 'Z' then Char.ofNat (c.toNat + 32) else c

/-- ASCII word character, i.e. the ASCII part of Python `\w`. -/
def isAsciiWord (c : Char) : Bool :=
  ('a' ≤ c && c ≤ 'z') || ('A' ≤ c && c ≤ 'Z') || ('0' ≤ c && c ≤ '9') || c = '_'

/-- The explicit multilingual ranges of the slug character class in
`generate_toc`: hiragana U+3040–U+309F, katakana U+30A0–U+30FF and the unified
CJK ideographs U+4E00–U+9FFF (these are also word characters for Python `\w`). -/
def isCjkWord (c : Char) : Bool :=
  (0x3040 ≤ c.toNat && c.toNat ≤ 0x309f) ||
  (0x30a0 ≤ c.toNat && c.toNat ≤ 0x30ff) ||
  (0x4e00 ≤ c.toNat && c.toNat ≤ 0x9fff)

/-- A character kept by `re.sub(r'[^\w\s…-]', '', ·)` in `generate_toc`:
word characters (modelled for the ASCII + Japanese repertoire these documents
use), whitespace, and the hyphen. -/
def isSlugKeep (c : Char) : Bool :=
  isAsciiWord c || isCjkWord c || isPySpace c || c = '-'

/-- Python `str.split(sep)` for a one-character separator: splits on every
occurrence and keeps empty pieces. -/
def splitOnChar (sep : Char) : Str → List Str
  | [] => [[]]
  | c :: cs =>
    if c = sep then [] :: splitOnChar sep cs
    else
      match splitOnChar sep cs with
      | [] => [[c]]
      | t :: ts => (c :: t) :: ts

/-- Python `sep.join(pieces)`. -/
def joinWith (sep : Str) : List Str → Str
  | [] => []
  | [x] => x
  | x :: y :: rest => x ++ sep ++ joinWith sep (y :: rest)

/-- Python `str.strip()`: drop whitespace from both ends. -/
def pyStrip (s : Str) : Str :=
  ((s.dropWhile isPySpace).reverse.dropWhile isPySpace).reverse

/-- Decimal digit character. -/
def digitChar (n : Nat) : Char := Char.ofNat (48 + n)

/-- Decimal representation, with structural fuel so that the kernel can
evaluate it (the fuel argument strictly exceeds the number, which suffices
because the number shrinks at every step). -/
def natStrGo : Nat → Nat → Str
  | 0, _ => []
  | fuel + 1, n =>
    if n < 10 then [digitChar n]
    else natStrGo fuel (n / 10) ++ [digitChar (n % 10)]

/-- Decimal representation of a natural number, as Python `str(n)` produces. -/
def natStr (n : Nat) : Str := natStrGo (n + 1) n

theorem natStrGo_irrel : ∀ f1 f2 n, n < f1 → n < f2 → natStrGo f1 n = natStrGo f2 n := by
  intro f1
  induction f1 with
  | zero => intro f2 n h1; omega
  | succ f1' ih =>
    intro f2 n h1 h2
    cases f2 with
    | zero => omega
    | succ f2' =>
      by_cases h : n < 10
      · simp [natStrGo, h]
      · have hd : n / 10 < n := Nat.div_lt_self (by omega) (by omega)
        simp [natStrGo, h]
        exact ih f2' (n / 10) (by omega) (by omega)

/-- The defining recurrence of `natStr`. -/
theorem natStr_eq (n : Nat) :
    natStr n = if n < 10 then [digitChar n]
               else natStr (n / 10) ++ [digitChar (n % 10)] := by
  by_cases h : n < 10
  · simp [natStr, natStrGo, h]
  · have hd : n / 10 < n := Nat.div_lt_self (by omega) (by omega)
    simp [natStr, natStrGo, h]
    exact natStrGo_irrel n (n / 10 + 1) (n / 10) (by omega) (by omega)

/-- Substring test: does `pat` occur contiguously inside `s`? (Used to state
facts of the form "the output contains …".) -/
def occursIn (pat : Str) : Str → Bool
  | [] => pat.isEmpty
  | c :: cs => pat.isPrefixOf (c :: cs) || occursIn pat cs

/-! ## Generic regex-substitution scanners

Python `re.sub(pat, f, s)` scans left to right, replaces each leftmost
non-overlapping match and resumes after it.  `sub_scan try s` is that loop
for a pattern whose unique match at a given start is computed by `try`
(returning the replacement and the remainder after the match).  Fuel makes
the recursion structural so the kernel can evaluate; a match always consumes
at least one character, so fuel bounded below by the length never runs out. -/

/-- A matcher that always consumes at least one character on success. -/
def Shrinking {α : Type} (f : Str → Option (α × Str)) : Prop :=
  ∀ s p, f s = some p → p.2.length < s.length

def sub_scan_go (f : Str → Option (Str × Str)) : Nat → Str → Str
  | 0, s => s
  | _, [] => []
  | fuel + 1, c :: cs =>
    match f (c :: cs) with
    | some p => p.1 ++ sub_scan_go f fuel p.2
    | none => c :: sub_scan_go f fuel cs

def sub_scan (f : Str → Option (Str × Str)) (_ : Shrinking f) (s : Str) : Str :=
  sub_scan_go f s.length s

/-- Like `sub_scan` but collecting the per-match data (Python `re.findall`). -/
def scan_all_go {α : Type} (f : Str → Option (α × Str)) : Nat → Str → List α
  | 0, _ => []
  | _, [] => []
  | fuel + 1, c :: cs =>
    match f (c :: cs) with
    | some p => p.1 :: scan_all_go f fuel p.2
    | none => scan_all_go f fuel cs

def scan_all {α : Type} (f : Str → Option (α × Str)) (_ : Shrinking f) (s : Str) : List α :=
  scan_all_go f s.length s

theorem sub_scan_go_irrel (f : Str → Option (Str × Str)) (hf : Shrinking f) :
    ∀ f1 f2 s, s.length ≤ f1 → s.length ≤ f2 →
      sub_scan_go f f1 s = sub_scan_go f f2 s := by
  intro f1
  induction f1 with
  | zero =>
    intro f2 s h1 h2
    have hs : s = [] := List.eq_nil_of_length_eq_zero (Nat.le_zero.mp h1)
    subst hs
    cases f2 <;> rfl
  | succ f1' ih =>
    intro f2 s h1 h2
    cases s with
    | nil => cases f2 <;> rfl
    | cons c cs =>
      cases f2 with
      | zero => simp at h2
      | succ f2' =>
        cases hfc : f (c :: cs) with
        | some p =>
          have hl := hf _ _ hfc
          simp only [sub_scan_go, hfc]
          have h3 : p.2.length ≤ f1' := by simp at h1 hl; omega
          have h4 : p.2.length ≤ f2' := by simp at h2 hl; omega
          rw [ih f2' p.2 h3 h4]
        | none =>
          simp only [sub_scan_go, hfc]
          have h3 : cs.length ≤ f1' := by simp at h1; omega
          have h4 : cs.length ≤ f2' := by simp at h2; omega
          rw [ih f2' cs h3 h4]

theorem scan_all_go_irrel {α : Type} (f : Str → Option (α × Str)) (hf : Shrinking f) :
    ∀ f1 f2 s, s.length ≤ f1 → s.length ≤ f2 →
      scan_all_go f f1 s = scan_all_go f f2 s := by
  intro f1
  induction f1 with
  | zero =>
    intro f2 s h1 h2
    have hs : s = [] := List.eq_nil_of_length_eq_zero (Nat.le_zero.mp h1)
    subst hs
    cases f2 <;> rfl
  | succ f1' ih =>
    intro f2 s h1 h2
    cases s with
    | nil => cases f2 <;> rfl
    | cons c cs =>
      cases f2 with
      | zero => simp at h2
      | succ f2' =>
        cases hfc : f (c :: cs) with
        | some p =>
          have hl := hf _ _ hfc
          simp only [scan_all_go, hfc]
          have h3 : p.2.length ≤ f1' := by simp at h1 hl; omega
          have h4 : p.2.length ≤ f2' := by simp at h2 hl; omega
          rw [ih f2' p.2 h3 h4]
        | none =>
          simp only [scan_all_go, hfc]
          have h3 : cs.length ≤ f1' := by simp at h1; omega
          have h4 : cs.length ≤ f2' := by simp at h2; omega
          rw [ih f2' cs h3 h4]

theorem sub_scan_nil (f : Str → Option (Str × Str)) (hf : Shrinking f) :
    sub_scan f hf [] = [] := rfl

theorem sub_scan_some {f : Str → Option (Str × Str)} (hf : Shrinking f)
    {c : Char} {cs : Str} {p : Str × Str} (h : f (c :: cs) = some p) :
    sub_scan f hf (c :: cs) = p.1 ++ sub_scan f hf p.2 := by
  have hl := hf _ _ h
  simp only [sub_scan, List.length_cons, sub_scan_go, h]
  rw [sub_scan_go_irrel f hf cs.length p.2.length p.2 (by simp at hl; omega) le_rfl]

theorem sub_scan_none {f : Str → Option (Str × Str)} (hf : Shrinking f)
    {c : Char} {cs : Str} (h : f (c :: cs) = none) :
    sub_scan f hf (c :: cs) = c :: sub_scan f hf cs := by
  simp only [sub_scan, List.length_cons, sub_scan_go, h]

theorem scan_all_nil {α : Type} (f : Str → Option (α × Str)) (hf : Shrinking f) :
    scan_all f hf [] = [] := rfl

theorem scan_all_some {α : Type} {f : Str → Option (α × Str)} (hf : Shrinking f)
    {c : Char} {cs : Str} {p : α × Str} (h : f (c :: cs) = some p) :
    scan_all f hf (c :: cs) = p.1 :: scan_all f hf p.2 := by
  have hl := hf _ _ h
  simp only [scan_all, List.length_cons, scan_all_go, h]
  rw [scan_all_go_irrel f hf cs.length p.2.length p.2 (by simp at hl; omega) le_rfl]

theorem scan_all_none {α : Type} {f : Str → Option (α × Str)} (hf : Shrinking f)
    {c : Char} {cs : Str} (h : f (c :: cs) = none) :
    scan_all f hf (c :: cs) = scan_all f hf cs := by
  simp only [scan_all, List.length_cons, scan_all_go, h]

/-! ## The TOC extractor (`generate_toc`) -/

/-- Match of `re.match(r'^(#{2,3})\s+(.+)$', line)` together with the
`.strip()` that `generate_toc` immediately applies to group 2.

The regex matches exactly when the leading run of `#` has length 2 or 3
(a longer run makes `\s+` fail even after backtracking), the next character is
whitespace, and at least one more character follows (with `\s+` greedy and
`(.+)` backtracking one whitespace character when the line ends in blanks);
in every such case `group(2).strip()` equals the rest of the line stripped. -/
def header_match (line : Str) : Option (Nat × Str) :=
  let hs := line.takeWhile (· = '#')
  let rest := line.drop hs.length
  if (hs.length = 2 || hs.length = 3)
      && (match rest.head? with
          | some c => isPySpace c
          | none => false)
      && 2 ≤ rest.length
  then some (hs.length, pyStrip rest) else none

theorem dropWhile_length_le (p : Char → Bool) (l : Str) :
    (l.dropWhile p).length ≤ l.length := by
  induction l with
  | nil => simp
  | cons c cs ih =>
    by_cases h : p c <;> simp [List.dropWhile_cons, h] <;> omega

/-- Completion of an anchor annotation: `u` is the text right after `{#`; the
pattern needs a nonempty run of non-`}` characters and then `}` (greedy
`[^}]+` runs exactly to the first `}`).  Returns the remainder after `}`. -/
def anchor_close (u : Str) : Option Str :=
  match u.dropWhile (· ≠ rbrace) with
  | [] => none
  | _ :: rest => if (u.takeWhile (· ≠ rbrace)).isEmpty then none else some rest

/-- One attempt of the pattern `\s*\{#[^}]+\}` anchored at the start of `s`:
a whitespace run, then `{#`, then an anchor body closed by `}`.  Returns the
remainder after the match.  (At a given start position the match is unique:
`\s*` cannot stop early because `{` is not whitespace.) -/
def try_anchor (s : Str) : Option Str :=
  match s.dropWhile isPySpace with
  | a :: b :: u => if a = lbrace && b = '#' then anchor_close u else none
  | _ => none

theorem anchor_close_length {u r : Str} (h : anchor_close u = some r) :
    r.length < u.length := by
  unfold anchor_close at h
  split at h
  · simp at h
  · next y rest heq =>
    split at h
    · simp at h
    · have h1 := dropWhile_length_le (fun c => decide (c ≠ rbrace)) u
      rw [heq] at h1
      simp at h1
      simp at h
      subst h
      omega

theorem try_anchor_length {s r : Str} (h : try_anchor s = some r) :
    r.length < s.length := by
  unfold try_anchor at h
  split at h
  · next a b u heq =>
    split at h
    · have h1 := anchor_close_length h
      have h2 := dropWhile_length_le isPySpace s
      rw [heq] at h2
      simp at h2
      omega
    · simp at h
  · simp at h

/-- The anchor-annotation matcher as a substitution matcher: the replacement
is empty (the annotation is removed). -/
def anchor_try (s : Str) : Option (Str × Str) :=
  (try_anchor s).map (fun rest => (([] : Str), rest))

theorem anchor_try_shrinking : Shrinking anchor_try := by
  intro s p h
  unfold anchor_try at h
  rw [Option.map_eq_some'] at h
  obtain ⟨rest, hr, hp⟩ := h
  rw [← hp]
  simpa using try_anchor_length hr

/-- Embedding of `re.sub(r'\s*\{#[^}]+\}', '', s)`: scan left to right,
remove every (leftmost, non-overlapping) anchor annotation together with the
whitespace run before it. -/
def strip_anchors (s : Str) : Str :=
  sub_scan anchor_try anchor_try_shrinking s

theorem strip_anchors_nil : strip_anchors [] = [] := rfl

theorem strip_anchors_some {c : Char} {cs rest : Str}
    (h : try_anchor (c :: cs) = some rest) :
    strip_anchors (c :: cs) = strip_anchors rest := by
  unfold strip_anchors
  have hsome : anchor_try (c :: cs) = some (([] : Str), rest) := by
    simp [anchor_try, h]
  rw [sub_scan_some anchor_try_shrinking hsome]
  rfl

theorem strip_anchors_none {c : Char} {cs : Str}
    (h : try_anchor (c :: cs) = none) :
    strip_anchors (c :: cs) = c :: strip_anchors cs := by
  unfold strip_anchors
  exact sub_scan_none anchor_try_shrinking (by simp [anchor_try, h])

/-- A whitespace run, replaced by one hyphen. -/
def ws_run_try (s : Str) : Option (Str × Str) :=
  match s with
  | c :: cs => if isPySpace c then some ((['-'] : Str), cs.dropWhile isPySpace) else none
  | [] => none

theorem ws_run_try_shrinking : Shrinking ws_run_try := by
  intro s p h
  unfold ws_run_try at h
  split at h
  · next c cs =>
    split at h
    · simp only [Option.some.injEq] at h
      rw [← h]
      have := dropWhile_length_le isPySpace cs
      simp
      omega
    · simp at h
  · simp at h

/-- Embedding of `re.sub(r'\s+', '-', s)`: every maximal whitespace run is
replaced by a single hyphen. -/
def collapse_ws (s : Str) : Str :=
  sub_scan ws_run_try ws_run_try_shrinking s

/-- Slug derivation in `generate_toc`: lowercase, drop characters outside the
word/whitespace/CJK/hyphen class, collapse whitespace runs to hyphens. -/
def make_anchor (title_clean : Str) : Str :=
  collapse_ws ((title_clean.map pyLower).filter isSlugKeep)

/-- The `header_counts` dict of `generate_toc`. -/
abbrev Counts := List (Str × Nat)

def lookupCount : Counts → Str → Option Nat
  | [], _ => none
  | (k, v) :: rest, key => if k = key then some v else lookupCount rest key

def setCount : Counts → Str → Nat → Counts
  | [], key, v => [(key, v)]
  | (k, w) :: rest, key, v =>
    if k = key then (k, v) :: rest else (k, w) :: setCount rest key v

/-- The collision branch of `generate_toc`: a base slug already seen bumps its
counter and gets `base-N`; a fresh base slug is recorded with counter 0 and
keeps the bare slug. -/
def assign_anchor (counts : Counts) (base : Str) : Str × Counts :=
  match lookupCount counts base with
  | some n => (base ++ '-' :: natStr (n + 1), setCount counts base (n + 1))
  | none => (base, setCount counts base 0)

/-- Everything `generate_toc` derives from one qualifying header line. -/
structure TocEntry where
  level : Nat
  titleClean : Str
  base : Str
  anchor : Str
deriving DecidableEq, Repr

/-- The data the loop body of `generate_toc` computes for one qualifying
header line: strip old annotations, derive the base slug, assign the anchor
against the current `header_counts`. -/
def toc_entry_of (counts : Counts) (k : Nat) (title : Str) : TocEntry :=
  ⟨k, strip_anchors title, make_anchor (strip_anchors title),
   (assign_anchor counts (make_anchor (strip_anchors title))).1⟩

/-- The `header_counts` dict after processing one qualifying header line. -/
def toc_counts_after (counts : Counts) (title : Str) : Counts :=
  (assign_anchor counts (make_anchor (strip_anchors title))).2

/-- Header line rewritten with its bound anchor:
`f'{match.group(1)} {title_clean} {{#{anchor}}}'`. -/
def rewrite_header_line (e : TocEntry) : Str :=
  List.replicate e.level '#' ++ ' ' :: e.titleClean ++ ' ' :: lbrace :: '#' :: e.anchor ++ [rbrace]

/-- The per-line loop of `generate_toc`: collects the TOC entries and the
modified lines, threading the `header_counts` dict. -/
def toc_go (counts : Counts) : List Str → List TocEntry × List Str
  | [] => ([], [])
  | line :: rest =>
    match header_match line with
    | none =>
      ((toc_go counts rest).1, line :: (toc_go counts rest).2)
    | some (k, title) =>
      (toc_entry_of counts k title :: (toc_go (toc_counts_after counts title) rest).1,
       rewrite_header_line (toc_entry_of counts k title)
         :: (toc_go (toc_counts_after counts title) rest).2)

/-- One TOC list item: `f'{indent}- [{title_clean}](#{anchor})'` with two
spaces of indent per level beyond 2. -/
def toc_item (e : TocEntry) : Str :=
  List.replicate (2 * (e.level - 2)) ' ' ++ ("- [".data) ++ e.titleClean
    ++ ("](#".data) ++ e.anchor ++ (")".data)

/-- The TOC entries of a document, in document order, exactly as the loop of
`generate_toc` derives them. -/
def toc_entries (markdown : Str) : List TocEntry :=
  (toc_go [] (splitOnChar '\n' markdown)).1

/-- The rewritten lines of a document (headers now carrying their bound
anchors), as the loop of `generate_toc` produces them. -/
def toc_mod_lines (markdown : Str) : List Str :=
  (toc_go [] (splitOnChar '\n' markdown)).2

/-- Embedding of `generate_toc`: returns `(toc_markdown, rewritten_markdown)`;
with no qualifying header the fragment is empty and the text is unchanged. -/
def generate_toc (markdown : Str) : Str × Str :=
  if (toc_entries markdown).isEmpty then ([], markdown)
  else
    (("## 目次\n\n".data) ++ joinWith ("\n".data) ((toc_entries markdown).map toc_item)
       ++ ("\n\n---\n\n".data),
     joinWith ("\n".data) (toc_mod_lines markdown))

/-- The (base slug, assigned anchor) pairs of the qualifying headers of a
document, in document order, exactly as `generate_toc` computes them. -/
def toc_anchors (markdown : Str) : List (Str × Str) :=
  (toc_entries markdown).map (fun e => (e.base, e.anchor))

/-! ## Filesystem environment and image encoding -/

/-- The filesystem as the engine sees it: existence tests plus, for each
path, the base64 encoding of the file's bytes (the engine never inspects the
bytes themselves, only pastes their base64 form into a data URI). -/
structure Fs where
  pathExists : Str → Bool
  contentB64 : Str → Str

/-- Python `base_path / img_path_str` (pathlib): an absolute right operand
replaces the base; otherwise the two are joined with a separator. -/
def resolve_path (bp : Option Str) (p : Str) : Str :=
  match bp with
  | none => p
  | some b => if p.head? = some '/' then p else b ++ '/' :: p

/-- Python `Path(p).suffix.lower()`: the extension (with dot) of the final
component, empty when the name has no inner dot or ends with the dot. -/
def path_suffix (p : Str) : Str :=
  let name := ((splitOnChar '/' p).getLastD [])
  let stem := name.takeWhile (· ≠ '.')
  let i := name.length - 1 - ((name.reverse).takeWhile (· ≠ '.')).length
  if (name.contains '.') && 0 < i && i + 1 < name.length
  then (name.drop i).map pyLower else []

/-- Embedding of `image_to_data_uri`: dispatch on the lowercased suffix,
prepending the MIME prefix to the base64 payload; unknown suffixes yield
the empty string. -/
def image_to_data_uri (fs : Fs) (p : Str) : Str :=
  let suf := path_suffix p
  if suf = (".svg".data) then ("data:image/svg+xml;base64,".data) ++ fs.contentB64 p
  else if suf = (".jpg".data) || suf = (".jpeg".data) then ("data:image/jpeg;base64,".data) ++ fs.contentB64 p
  else if suf = (".png".data) then ("data:image/png;base64,".data) ++ fs.contentB64 p
  else if suf = (".gif".data) then ("data:image/gif;base64,".data) ++ fs.contentB64 p
  else if suf = (".webp".data) then ("data:image/webp;base64,".data) ++ fs.contentB64 p
  else []

/-- Embedding of `svg_to_data_uri` (delegates to `image_to_data_uri`). -/
def svg_to_data_uri (fs : Fs) (p : Str) : Str := image_to_data_uri fs p

/-- Run up to the first `stop` character: returns the run and the remainder
after the `stop` character, failing when `stop` does not occur.  This is the
unique match of greedy `[^stop]*` followed by the literal `stop`. -/
def after_char (stop : Char) (s : Str) : Option (Str × Str) :=
  match s.dropWhile (· ≠ stop) with
  | [] => none
  | _ :: rest => some (s.takeWhile (· ≠ stop), rest)

theorem after_char_some {stop : Char} {s run rest : Str}
    (h : after_char stop s = some (run, rest)) :
    run = s.takeWhile (· ≠ stop) ∧ rest.length < s.length := by
  unfold after_char at h
  split at h
  · simp at h
  · next y ys heq =>
    have h1 := dropWhile_length_le (fun c => decide (c ≠ stop)) s
    rw [heq] at h1
    simp only [Option.some.injEq, Prod.mk.injEq] at h
    obtain ⟨h2, h3⟩ := h
    subst h2
    subst h3
    refine ⟨rfl, ?_⟩
    simp at h1
    omega

/-! ## Image references -/

/-- One attempt of `!\[([^\]]*)\]\(([^)]+)\)` anchored at the start:
`![`, an alt text without `]`, `]`, `(`, a nonempty path without `)`, `)`.
Returns `((alt, path), remainder)`. -/
def try_image (s : Str) : Option ((Str × Str) × Str) :=
  match s with
  | a :: b :: t =>
    if a = '!' && b = '[' then
      match after_char ']' t with
      | none => none
      | some (alt, u) =>
        match u with
        | c :: v =>
          if c = '(' then
            match after_char ')' v with
            | none => none
            | some (pth, rest) =>
              if pth.isEmpty then none else some ((alt, pth), rest)
          else none
        | [] => none
    else none
  | _ => none

theorem try_image_shrinking : Shrinking try_image := by
  intro s p h
  unfold try_image at h
  split at h
  · next a b t =>
    split at h
    · split at h
      · simp at h
      · next alt u heq =>
        have h1 := after_char_some heq
        split at h
        · next c v =>
          split at h
          · split at h
            · simp at h
            · next pth rest heq2 =>
              have h2 := after_char_some heq2
              split at h
              · simp at h
              · simp at h
                subst h
                simp at h1 h2 ⊢
                omega
          · simp at h
        · simp at h
    · simp at h
  · simp at h

/-- Python `re.findall(r'!\[([^\]]*)\]\(([^)]+)\)', s)`. -/
def find_images (s : Str) : List (Str × Str) :=
  scan_all try_image try_image_shrinking s

/-- Embedding of the `replace_image` callback: an existing file with a known
format becomes an inline figure; anything else becomes the visible
missing-image placeholder. -/
def replace_image (fs : Fs) (bp : Option Str) (alt pth : Str) : Str :=
  let img_path := resolve_path bp pth
  if fs.pathExists img_path then
    let data_uri := image_to_data_uri fs img_path
    if ¬data_uri.isEmpty then
      ("<figure><img src=\"".data) ++ data_uri ++ ("\" alt=\"".data) ++ alt
        ++ ("\" style=\"max-width:100%; height:auto;\"/><figcaption>".data) ++ alt
        ++ ("</figcaption></figure>".data)
    else missing_image_html alt
  else missing_image_html alt
where
  missing_image_html (alt : Str) : Str :=
    ("<figure class=\"missing-image\"><div style=\"background:#f0f0f0; padding:40px; text-align:center; border:1px dashed #ccc;\">[Image: ".data)
      ++ alt ++ ("]</div></figure>".data)

/-- The image matcher mapped through the `replace_image` callback. -/
def image_sub_try (fs : Fs) (bp : Option Str) (s : Str) : Option (Str × Str) :=
  (try_image s).map (fun q => (replace_image fs bp q.1.1 q.1.2, q.2))

theorem image_sub_try_shrinking (fs : Fs) (bp : Option Str) :
    Shrinking (image_sub_try fs bp) := by
  intro s p h
  unfold image_sub_try at h
  rw [Option.map_eq_some'] at h
  obtain ⟨q, hq, hp⟩ := h
  have := try_image_shrinking s q hq
  rw [← hp]
  simpa using this

/-- The global single-image substitution pass (stage after anchors). -/
def process_images (fs : Fs) (bp : Option Str) : Str → Str :=
  sub_scan (image_sub_try fs bp) (image_sub_try_shrinking fs bp)

/-! ## Column groups -/

/-- One item of a column group: existing, encodable images render as column
figures; everything else silently contributes nothing (note: no placeholder
here, unlike `replace_image`). -/
def column_item_html (fs : Fs) (bp : Option Str) (ap : Str × Str) : Str :=
  let img_path := resolve_path bp ap.2
  if fs.pathExists img_path then
    let data_uri := image_to_data_uri fs img_path
    if ¬data_uri.isEmpty then
      ("<figure class=\"column-item\"><img src=\"".data) ++ data_uri
        ++ ("\" alt=\"".data) ++ ap.1 ++ ("\"/><figcaption>".data) ++ ap.1
        ++ ("</figcaption></figure>".data)
    else []
  else []

/-- The `column_html` accumulation shared verbatim by `process_columns` and
`process_inline_columns` in the source. -/
def column_group_html (fs : Fs) (bp : Option Str) (images : List (Str × Str)) : Str :=
  ("<div class=\"image-columns\">".data)
    ++ (images.map (column_item_html fs bp)).flatten ++ ("</div>".data)

/-- One attempt of `<!--\s*WORD\s*-->` anchored at the start (`\s*` greedy;
the match at a given start is unique).  Returns the remainder. -/
def try_marker (word : Str) (s : Str) : Option Str :=
  match s with
  | a :: b :: c :: d :: t =>
    if a = '<' && b = '!' && c = '-' && d = '-' then
      if word.isPrefixOf (t.dropWhile isPySpace) then
        match ((t.dropWhile isPySpace).drop word.length).dropWhile isPySpace with
        | x :: y :: z :: rest =>
          if x = '-' && y = '-' && z = '>' then some rest else none
        | _ => none
      else none
    else none
  | _ => none

theorem try_marker_length {word s r : Str} (h : try_marker word s = some r) :
    r.length + 4 ≤ s.length := by
  unfold try_marker at h
  split at h
  · next a b c d t =>
    split at h
    · split at h
      · split at h
        · next x y z rest heq =>
          split at h
          · simp at h
            subst h
            have h1 := dropWhile_length_le isPySpace ((t.dropWhile isPySpace).drop word.length)
            rw [heq] at h1
            have h2 : ((t.dropWhile isPySpace).drop word.length).length
                = (t.dropWhile isPySpace).length - word.length := List.length_drop _ _
            have h3 := dropWhile_length_le isPySpace t
            simp at h1 ⊢
            omega
          · simp at h
        · simp at h
      · simp at h
    · simp at h
  · simp at h

/-- Lazy `(.*?)` before the closing marker: scan forward for the earliest
position where `<!--\s*/columns\s*-->` matches; everything before it is the
span content.  Returns `(content, remainder after the closing marker)`. -/
def find_end_marker : Str → Option (Str × Str)
  | [] => none
  | c :: cs =>
    match try_marker ("/columns".data) (c :: cs) with
    | some rest => some ([], rest)
    | none =>
      match find_end_marker cs with
      | some (content, rest) => some (c :: content, rest)
      | none => none

theorem find_end_marker_length {s content rest : Str}
    (h : find_end_marker s = some (content, rest)) : rest.length < s.length := by
  induction s generalizing content rest with
  | nil => simp [find_end_marker] at h
  | cons c cs ih =>
    unfold find_end_marker at h
    split at h
    · next r heq =>
      have h1 := try_marker_length heq
      simp only [Option.some.injEq, Prod.mk.injEq] at h
      obtain ⟨h2, h3⟩ := h
      subst h3
      simp at h1 ⊢
      omega
    · split at h
      · next content2 rest2 heq =>
        have h1 := ih heq
        simp only [Option.some.injEq, Prod.mk.injEq] at h
        obtain ⟨h2, h3⟩ := h
        subst h3
        simp
        omega
      · simp at h

/-- One attempt of `<!--\s*columns\s*-->(.*?)<!--\s*/columns\s*-->` (DOTALL)
anchored at the start, already mapped through the `process_columns`
replacement: a span with no image reference is reproduced verbatim, any
other span becomes a column group consuming its images. -/
def try_columns_span (fs : Fs) (bp : Option Str) (s : Str) : Option (Str × Str) :=
  match try_marker ("columns".data) s with
  | none => none
  | some afterBegin =>
    match find_end_marker afterBegin with
    | none => none
    | some (content, rest) =>
      if (find_images content).isEmpty then some (s.take (s.length - rest.length), rest)
      else some (column_group_html fs bp (find_images content), rest)

theorem try_columns_span_shrinking (fs : Fs) (bp : Option Str) :
    Shrinking (try_columns_span fs bp) := by
  intro s p h
  unfold try_columns_span at h
  split at h
  · simp at h
  · next afterBegin heq =>
    have h1 := try_marker_length heq
    split at h
    · simp at h
    · next content rest heq2 =>
      have h2 := find_end_marker_length heq2
      obtain ⟨p1, p2⟩ := p
      split at h
      · simp at h
        rw [← h.2]
        show rest.length < s.length
        omega
      · simp at h
        rw [← h.2]
        show rest.length < s.length
        omega

/-- The explicit column-span substitution (first stage of
`markdown_to_html_internal`). -/
def process_columns (fs : Fs) (bp : Option Str) : Str → Str :=
  sub_scan (try_columns_span fs bp) (try_columns_span_shrinking fs bp)

/-- Embedding of the `process_inline_columns` callback applied to one
physical line.  The driving regex `^.*!\[…\]\(…\).*!\[…\]\(…\).*$`
(MULTILINE, `.` excluding newlines) matches exactly the lines carrying two
or more disjoint image references — each reference match is determined by
its start (`[^\]]*` stops at the first `]`, `[^)]+` at the first `)`), so a
line matches the doubled pattern iff the left-to-right scan `find_images`
finds at least two — and each match covers its whole line, which the
callback replaces by the column group (or, for fewer than two scanned
images, leaves unchanged). -/
def process_inline_columns (fs : Fs) (bp : Option Str) (line : Str) : Str :=
  let images := find_images line
  if images.length < 2 then line
  else column_group_html fs bp images

/-- The inline multi-image substitution over the whole text, line by line. -/
def inline_columns_stage (fs : Fs) (bp : Option Str) (text : Str) : Str :=
  joinWith ("\n".data) ((splitOnChar '\n' text).map (process_inline_columns fs bp))

/-! ## Header anchors, blockquotes, headers, emphasis, links, rules -/

theorem isPrefixOf_length {l₁ l₂ : Str} (h : l₁.isPrefixOf l₂ = true) :
    l₁.length ≤ l₂.length := by
  rw [List.isPrefixOf_iff_prefix] at h
  obtain ⟨r, hr⟩ := h
  rw [← hr]
  simp

/-- One attempt of `\{#([^}]+)\}` anchored at the start: returns the anchor
body and the remainder after the closing brace. -/
def try_anchor_at (s : Str) : Option (Str × Str) :=
  match s with
  | a :: b :: u =>
    if a = lbrace && b = '#' then
      match after_char rbrace u with
      | some (body, rest) => if body.isEmpty then none else some (body, rest)
      | none => none
    else none
  | _ => none

/-- Python `re.search(r'\{#([^}]+)\}', s)`: body of the leftmost anchor. -/
def first_anchor : Str → Option Str
  | [] => none
  | c :: cs =>
    match try_anchor_at (c :: cs) with
    | some p => some p.1
    | none => first_anchor cs

/-- Is position `i` of the text after the hashes a spot where the final
`\{#[^}]+\}$` of the header-with-anchor pattern can match?  It must leave
room for `\s+` (one whitespace character) and `.+` (one more character)
before it — hence `2 ≤ i` — and the annotation must close exactly at the end
of the line. -/
def feasible_anchor_pos (rest : Str) (i : Nat) : Bool :=
  2 ≤ i &&
    (match try_anchor_at (rest.drop i) with
     | some p => p.2.isEmpty
     | none => false)

/-- Embedding of the `header_with_anchor` callback together with its driving
pattern `^(#{1,6})\s+(.+\{#[^}]+\})$` (MULTILINE) applied to one line: the
leading `#` run must have length 1–6 (a longer run cannot shed hashes onto
`\s+`), then at least one whitespace character, then at least one more
character, and the line must end with a complete `{#…}` annotation.  Group 2
starts after the whitespace run, except that greedy `\s+` hands one blank
back when the annotation itself starts at the first non-blank position.  The
callback takes the first annotation of group 2 as the id and strips all
annotations from the title.  (The MULTILINE `\s+` could in principle cross a
newline after a line holding only hashes; no document in this development
exercises that corner, and `generate_toc` always emits title and annotation
on the header's own line.) -/
def header_with_anchor (line : Str) : Str :=
  let k := (line.takeWhile (· = '#')).length
  let rest := line.drop k
  let w := (rest.takeWhile isPySpace).length
  if 1 ≤ k && k ≤ 6 && 1 ≤ w
      && (List.range rest.length).any (feasible_anchor_pos rest) then
    let g2 :=
      if (List.range rest.length).any (fun i => w < i && feasible_anchor_pos rest i)
      then rest.drop w else rest.drop (w - 1)
    let anchor := (first_anchor g2).getD []
    ("<h".data) ++ natStr k ++ (" id=\"".data) ++ anchor ++ ("\">".data)
      ++ strip_anchors g2 ++ ("</h".data) ++ natStr k ++ (">".data)
  else line

/-- The header-with-anchor substitution over the whole text, line by line. -/
def header_anchor_stage (text : Str) : Str :=
  joinWith ("\n".data) ((splitOnChar '\n' text).map header_with_anchor)

/-- Flush of the blockquote state machine: one quotation container with the
accumulated line contents joined by explicit breaks. -/
def bq_flush (content : List Str) : Str :=
  ("<blockquote>".data) ++ joinWith ("<br/>".data) content ++ ("</blockquote>".data)

/-- The blockquote run-grouping loop of `markdown_to_html_internal`; the
second argument is `Some accumulated` exactly when `in_blockquote` is set. -/
def blockquote_go : List Str → Option (List Str) → List Str
  | [], none => []
  | [], some content => [bq_flush content]
  | l :: ls, st =>
    if ("> ".data).isPrefixOf (pyStrip l) then
      match st with
      | none => blockquote_go ls (some [(pyStrip l).drop 2])
      | some content => blockquote_go ls (some (content ++ [(pyStrip l).drop 2]))
    else
      match st with
      | none => l :: blockquote_go ls none
      | some content => bq_flush content :: l :: blockquote_go ls none

def blockquote_stage (text : Str) : Str :=
  joinWith ("\n".data) (blockquote_go (splitOnChar '\n' text) none)

/-- One header conversion `^#…# (.+)$` (exactly `k` hashes and one space)
applied to one line. -/
def header_sub_line (k : Nat) (line : Str) : Str :=
  if (List.replicate k '#' ++ [' ']).isPrefixOf line && k + 1 < line.length then
    ("<h".data) ++ natStr k ++ (">".data) ++ line.drop (k + 1)
      ++ ("</h".data) ++ natStr k ++ (">".data)
  else line

/-- The three MULTILINE header substitutions, `###` then `##` then `#`.
Each pass is line-local and preserves the line structure, and a converted
line starts with `<`, never with hashes, so running the three in sequence on
the text equals composing them on each line. -/
def headers_stage (text : Str) : Str :=
  joinWith ("\n".data)
    ((splitOnChar '\n' text).map
      (fun l => header_sub_line 1 (header_sub_line 2 (header_sub_line 3 l))))

/-- Lazy search for the closing delimiter: `acc` holds the (reversed)
content read so far; the close is taken at the earliest position, content
may not contain a newline. -/
def emph_go (delim : Str) (acc : Str) : Str → Option (Str × Str)
  | [] => if delim.isEmpty then some (acc.reverse, []) else none
  | d :: t' =>
    if delim.isPrefixOf (d :: t') then some (acc.reverse, (d :: t').drop delim.length)
    else if d = '\n' then none
    else emph_go delim (d :: acc) t'

theorem emph_go_length {delim acc t content rest : Str}
    (h : emph_go delim acc t = some (content, rest)) : rest.length ≤ t.length := by
  induction t generalizing acc with
  | nil =>
    unfold emph_go at h
    split at h
    · simp only [Option.some.injEq, Prod.mk.injEq] at h
      rw [← h.2]
    · simp at h
  | cons d t' ih =>
    unfold emph_go at h
    split at h
    · simp only [Option.some.injEq, Prod.mk.injEq] at h
      rw [← h.2]
      simp [List.length_drop]
    · split at h
      · simp at h
      · have := ih h
        simp
        omega

/-- Lazy `(.+?)` between two copies of a delimiter: at least one content
character (which may itself begin with delimiter characters), no newline,
closing at the earliest position where the delimiter follows. -/
def emph_close (delim : Str) (s : Str) : Option (Str × Str) :=
  match s with
  | [] => none
  | c :: cs => if c = '\n' then none else emph_go delim (c :: []) cs

theorem emph_close_length {delim s content rest : Str}
    (h : emph_close delim s = some (content, rest)) : rest.length < s.length := by
  unfold emph_close at h
  split at h
  · simp at h
  · split at h
    · simp at h
    · have := emph_go_length h
      simp
      omega

/-- One attempt of `DELIM(.+?)DELIM` anchored at the start, mapped through
the replacement `openT \1 closeT`. -/
def emph_try (delim openT closeT : Str) (s : Str) : Option (Str × Str) :=
  if delim.isPrefixOf s then
    match emph_close delim (s.drop delim.length) with
    | some (content, rest) => some (openT ++ content ++ closeT, rest)
    | none => none
  else none

theorem emph_try_shrinking (delim openT closeT : Str) :
    Shrinking (emph_try delim openT closeT) := by
  intro s p h
  obtain ⟨p1, p2⟩ := p
  unfold emph_try at h
  split at h
  · split at h
    · next content rest heq =>
      have h1 := emph_close_length heq
      have h2 : (s.drop delim.length).length = s.length - delim.length :=
        List.length_drop _ _
      simp only [Option.some.injEq, Prod.mk.injEq] at h
      rw [← h.2]
      show rest.length < s.length
      omega
    · simp at h
  · simp at h

/-- The `\*\*\*(.+?)\*\*\*` substitution (bold+italic). -/
def emph3_stage : Str → Str :=
  sub_scan (emph_try ("***".data) ("<strong><em>".data) ("</em></strong>".data))
    (emph_try_shrinking _ _ _)

/-- The `\*\*(.+?)\*\*` substitution (bold). -/
def emph2_stage : Str → Str :=
  sub_scan (emph_try ("**".data) ("<strong>".data) ("</strong>".data))
    (emph_try_shrinking _ _ _)

/-- The italic substitution `(?<!\*)\*([^*\n]+?)\*(?!\*)`: a star not
preceded by a star, a nonempty star-free newline-free body (the body class
makes lazy and greedy agree: it runs exactly to the next star), a closing
star not followed by a star.  `prevStar` tracks whether the previous
character of the original text was a star (the lookbehind). -/
def italic_go : Nat → Bool → Str → Str
  | 0, _, s => s
  | _, _, [] => []
  | fuel + 1, prevStar, c :: cs =>
    if c = '*' && !prevStar then
      let run := cs.takeWhile (fun d => d ≠ '*' && d ≠ '\n')
      let after := cs.drop (run.length + 1)
      if !run.isEmpty && (cs.drop run.length).head? = some '*'
          && after.head? ≠ some '*' then
        ("<em>".data) ++ run ++ ("</em>".data) ++ italic_go fuel true after
      else c :: italic_go fuel true cs
    else c :: italic_go fuel (c = '*') cs

def italic_sub (prevStar : Bool) (s : Str) : Str :=
  italic_go s.length prevStar s

/-- One attempt of the link pattern `\[([^\]]+)\]\(([^)]+)\)` anchored at
the start, mapped through the replacement `<a href="\2">\1</a>`. -/
def try_link (s : Str) : Option (Str × Str) :=
  match s with
  | c :: t =>
    if c = '[' then
      match after_char ']' t with
      | some (txt, u) =>
        if txt.isEmpty then none
        else
          match u with
          | d :: v =>
            if d = '(' then
              match after_char ')' v with
              | some (url, rest) =>
                if url.isEmpty then none
                else some (("<a href=\"".data) ++ url ++ ("\">".data) ++ txt
                             ++ ("</a>".data), rest)
              | none => none
            else none
          | [] => none
      | none => none
    else none
  | [] => none

theorem try_link_shrinking : Shrinking try_link := by
  intro s p h
  obtain ⟨p1, p2⟩ := p
  unfold try_link at h
  split at h
  · next c t =>
    split at h
    · split at h
      · next txt u heq =>
        have h1 := after_char_some heq
        split at h
        · simp at h
        · split at h
          · next d v =>
            split at h
            · split at h
              · next url rest heq2 =>
                have h2 := after_char_some heq2
                split at h
                · simp at h
                · simp only [Option.some.injEq, Prod.mk.injEq] at h
                  rw [← h.2]
                  show rest.length < (c :: t).length
                  simp at h1 h2 ⊢
                  omega
              · simp at h
            · simp at h
          · simp at h
      · simp at h
    · simp at h
  · simp at h

/-- The link substitution pass. -/
def links_stage : Str → Str :=
  sub_scan try_link try_link_shrinking

/-- One line of the `^---+$` (MULTILINE) horizontal-rule substitution. -/
def hr_line (line : Str) : Str :=
  if 3 ≤ line.length && line.all (· = '-') then ("<hr/>".data) else line

def hr_stage (text : Str) : Str :=
  joinWith ("\n".data) ((splitOnChar '\n' text).map hr_line)

/-! ## Tables -/

/-- Cell splitting of `convert_table`: split on `|`, drop the framing empty
first/last tokens; if nothing remains, fall back to the non-empty stripped
tokens of a plain split. -/
def row_cells (row : Str) : List Str :=
  let parts := splitOnChar '|' row
  let cells := ((parts.drop 1).dropLast).map pyStrip
  if cells.isEmpty then (parts.map pyStrip).filter (fun c => ¬c.isEmpty)
  else cells

/-- Embedding of `convert_table`: fewer than 2 accumulated lines are joined
back as plain text; otherwise row 0 supplies the header cells, row 1 is
discarded, and rows 2… supply the body rows (rows splitting to no cells are
skipped). -/
def convert_table (table_lines : List Str) : Str :=
  if table_lines.length < 2 then joinWith ("\n".data) table_lines
  else
    joinWith ("\n".data)
      ((("<table>".data) :: ("<thead><tr>".data)
          :: (row_cells (table_lines.headD [])).map
               (fun c => ("<th>".data) ++ c ++ ("</th>".data))
        ++ [("</tr></thead>".data), ("<tbody>".data)])
       ++ ((table_lines.drop 2).map (fun line =>
             if (row_cells line).isEmpty then []
             else ("<tr>".data)
               :: (row_cells line).map (fun c => ("<td>".data) ++ c ++ ("</td>".data))
               ++ [("</tr>".data)])).flatten
       ++ [("</tbody></table>".data)])

/-- A (stripped) line accumulated into a table run: starts and ends with a
pipe.  The source also tests the separator pattern `^\|[\s\-:|]+\|$`, but
any line matching it already starts and ends with a pipe, so the
disjunction collapses to this test. -/
def is_table_line (stripped : Str) : Bool :=
  stripped.head? = some '|' && stripped.getLast? = some '|'

/-- The table run-grouping loop: accumulate stripped table lines, flush
through `convert_table` on the first non-table line and at end of input.
(`in_table` in the source is true exactly when the buffer is nonempty.) -/
def table_go : List Str → List Str → List Str
  | [], buffer => if buffer.isEmpty then [] else [convert_table buffer]
  | l :: ls, buffer =>
    if is_table_line (pyStrip l) then table_go ls (buffer ++ [pyStrip l])
    else if buffer.isEmpty then l :: table_go ls []
    else convert_table buffer :: l :: table_go ls []

def tables_stage (text : Str) : Str :=
  joinWith ("\n".data) (table_go (splitOnChar '\n' text) [])

/-! ## Lists -/

/-- Match of `^\d+\.\s` on a stripped line, returning the content with the
prefix removed (as `re.sub(r'^\d+\.\s', '', stripped)` computes it). -/
def ol_content (stripped : Str) : Option Str :=
  let ds := stripped.takeWhile (fun c => '0' ≤ c && c ≤ '9')
  if ds.isEmpty then none
  else
    match stripped.drop ds.length with
    | c :: w :: rest2 => if c = '.' && isPySpace w then some rest2 else none
    | _ => none

/-- The list run-grouping loop with its two state flags `in_ul`, `in_ol`. -/
def lists_go : List Str → Bool → Bool → List Str
  | [], inUl, inOl =>
    (if inUl then [("</ul>".data)] else []) ++ (if inOl then [("</ol>".data)] else [])
  | l :: ls, inUl, inOl =>
    if ("- ".data).isPrefixOf (pyStrip l) || ("* ".data).isPrefixOf (pyStrip l) then
      (if inOl then [("</ol>".data)] else [])
        ++ (if inUl then [] else [("<ul>".data)])
        ++ (("<li>".data) ++ (pyStrip l).drop 2 ++ ("</li>".data)) :: lists_go ls true false
    else
      match ol_content (pyStrip l) with
      | some content =>
        (if inUl then [("</ul>".data)] else [])
          ++ (if inOl then [] else [("<ol>".data)])
          ++ (("<li>".data) ++ content ++ ("</li>".data)) :: lists_go ls false true
      | none =>
        (if inUl then [("</ul>".data)] else [])
          ++ (if inOl then [("</ol>".data)] else [])
          ++ l :: lists_go ls false false

def lists_stage (text : Str) : Str :=
  joinWith ("\n".data) (lists_go (splitOnChar '\n' text) false false)

/-! ## Paragraph wrapping -/

/-- Python `str.split(sep)` for a multi-character separator (leftmost,
non-overlapping). -/
def split_on_seq_go (sep : Str) : Nat → Str → List Str
  | 0, s => [s]
  | _, [] => [[]]
  | fuel + 1, c :: cs =>
    if sep.isPrefixOf (c :: cs) then
      [] :: split_on_seq_go sep fuel ((c :: cs).drop sep.length)
    else
      match split_on_seq_go sep fuel cs with
      | [] => [[c]]
      | t :: ts => (c :: t) :: ts

def split_on_seq (sep : Str) (s : Str) : List Str :=
  split_on_seq_go sep s.length s

/-- The recognized structural tags of the paragraph wrapper
(`^<(h[1-6]|ul|ol|li|blockquote|figure|hr|p|div|table)`, IGNORECASE). -/
def struct_tag_names : List Str :=
  ["h1", "h2", "h3", "h4", "h5", "h6", "ul", "ol", "li", "blockquote",
   "figure", "hr", "p", "div", "table"].map String.data

def starts_struct_tag (stripped : Str) : Bool :=
  match stripped with
  | c :: rest => c = '<' && struct_tag_names.any (fun t => t.isPrefixOf (rest.map pyLower))
  | [] => false

/-- The per-block loop of the paragraph wrapper: empty blocks are dropped,
blocks starting with a recognized structural tag — or with any `<` — pass
through stripped, all other blocks are wrapped in one paragraph. -/
def para_go : List Str → List Str
  | [] => []
  | b :: bs =>
    if (pyStrip b).isEmpty then para_go bs
    else if starts_struct_tag (pyStrip b) then pyStrip b :: para_go bs
    else if (pyStrip b).head? = some '<' then pyStrip b :: para_go bs
    else (("<p>".data) ++ pyStrip b ++ ("</p>".data)) :: para_go bs

def paragraphs_stage (text : Str) : Str :=
  joinWith ("\n".data) (para_go (split_on_seq ("\n\n".data) text))

/-! ## The full pipeline -/

/-- Embedding of `markdown_to_html_internal`: the ordered stages of the
conversion, exactly as the source applies them. -/
def markdown_to_html_internal (fs : Fs) (bp : Option Str) (markdown : Str) : Str :=
  let s1 := process_columns fs bp markdown
  let s2 := inline_columns_stage fs bp s1
  let s3 := header_anchor_stage s2
  let s4 := strip_anchors s3
  let s5 := process_images fs bp s4
  let s6 := blockquote_stage s5
  let s7 := headers_stage s6
  let s8 := emph3_stage s7
  let s9 := emph2_stage s8
  let s10 := italic_sub false s9
  let s11 := links_stage s10
  let s12 := hr_stage s11
  let s13 := tables_stage s12
  let s14 := lists_stage s13
  paragraphs_stage s14

/-- Embedding of `markdown_to_html`: optionally prepend the rendered TOC
(wrapped in its `nav` container) to the rendered rewritten body. -/
def markdown_to_html (fs : Fs) (markdown : Str) (bp : Option Str)
    (include_toc : Bool) : Str :=
  if include_toc then
    (if (generate_toc markdown).1.isEmpty then []
     else ("<nav class=\"toc\">".data)
       ++ markdown_to_html_internal fs bp (generate_toc markdown).1
       ++ ("</nav>".data))
      ++ markdown_to_html_internal fs bp (generate_toc markdown).2
  else markdown_to_html_internal fs bp markdown

def html_template_part0 : Str :=
  ("<!DOCTYPE html>\n<html lang=\"ja\">\n<head>\n    <meta charset=\"UTF-8\">\n    <title>".data)

def html_template_part1 : Str :=
  ("</title>\n    <style>\n        @page \x7b\n            size: A4;\n            margin: 1.2cm 1.5cm;\n".data)
  ++ ("        \x7d\n        body \x7b\n".data)
  ++ ("            font-family: \"Inter\", \"Helvetica Neue\", \"Arial\", \"Hiragino Kaku Gothic Pro\", \"Yu Gothic\", sans-serif;\n".data)
  ++ ("            line-height: 1.8;\n            color: #1a1a1a;\n            max-width: 100%;\n".data)
  ++ ("            margin: 0 auto;\n            padding: 16px;\n            font-size: 20px;\n".data)
  ++ ("        \x7d\n        h1 \x7b\n            color: #111;\n".data)
  ++ ("            border-bottom: 3px solid #2563eb;\n            padding-bottom: 12px;\n".data)
  ++ ("            font-size: 38px;\n            font-weight: 700;\n            margin-bottom: 24px;\n".data)
  ++ ("        \x7d\n        h2 \x7b\n            color: #1f2937;\n".data)
  ++ ("            border-left: 4px solid #2563eb;\n            padding-left: 16px;\n".data)
  ++ ("            margin-top: 40px;\n            margin-bottom: 16px;\n            font-size: 30px;\n".data)
  ++ ("            font-weight: 600;\n        \x7d\n        h3 \x7b\n            color: #374151;\n".data)
  ++ ("            font-size: 24px;\n            font-weight: 600;\n            margin-top: 24px;\n".data)
  ++ ("        \x7d\n        .metadata \x7b\n            color: #7f8c8d;\n            font-size: 18px;\n".data)
  ++ ("            margin-bottom: 30px;\n        \x7d\n        p \x7b\n            margin: 16px 0;\n".data)
  ++ ("            text-align: justify;\n            font-size: 20px;\n        \x7d\n        ul \x7b\n".data)
  ++ ("            margin: 16px 0;\n            padding-left: 28px;\n        \x7d\n        li \x7b\n".data)
  ++ ("            margin: 8px 0;\n            font-size: 20px;\n        \x7d\n        figure \x7b\n".data)
  ++ ("            margin: 20px 0;\n            text-align: center;\n".data)
  ++ ("            page-break-inside: avoid;\n        \x7d\n        figure img \x7b\n".data)
  ++ ("            max-width: 100%;\n            height: auto;\n            border: 1px solid #ddd;\n".data)
  ++ ("            border-radius: 4px;\n        \x7d\n        figcaption \x7b\n".data)
  ++ ("            font-size: 16px;\n            color: #666;\n            margin-top: 8px;\n".data)
  ++ ("            font-style: italic;\n        \x7d\n        .images-section, .diagrams-section \x7b\n".data)
  ++ ("            margin-top: 40px;\n            page-break-before: always;\n        \x7d\n".data)
  ++ ("        strong \x7b\n            color: #2c3e50;\n        \x7d\n        blockquote \x7b\n".data)
  ++ ("            margin: 24px 0;\n            padding: 16px 24px;\n            background: #f8f9fa;\n".data)
  ++ ("            border-left: 4px solid #2563eb;\n            font-style: italic;\n".data)
  ++ ("            color: #4b5563;\n        \x7d\n        hr \x7b\n            border: none;\n".data)
  ++ ("            border-top: 1px solid #e5e7eb;\n            margin: 32px 0;\n        \x7d\n".data)
  ++ ("        ol \x7b\n            margin: 16px 0;\n            padding-left: 28px;\n        \x7d\n".data)
  ++ ("        ol li \x7b\n            margin: 8px 0;\n        \x7d\n        a \x7b\n".data)
  ++ ("            color: #2563eb;\n            text-decoration: none;\n        \x7d\n        table \x7b\n".data)
  ++ ("            width: 100%;\n            border-collapse: collapse;\n            margin: 20px 0;\n".data)
  ++ ("            font-size: 14px;\n        \x7d\n        th, td \x7b\n".data)
  ++ ("            border: 1px solid #e5e7eb;\n            padding: 12px;\n            text-align: left;\n".data)
  ++ ("        \x7d\n        th \x7b\n            background-color: #f8fafc;\n".data)
  ++ ("            font-weight: 600;\n            color: #1f2937;\n        \x7d\n".data)
  ++ ("        tr:nth-child(even) \x7b\n            background-color: #f9fafb;\n        \x7d\n".data)
  ++ ("        .content > h1:first-child \x7b\n            display: none;\n        \x7d\n".data)
  ++ ("        /* Table of Contents Styles */\n        .toc \x7b\n            background: #f8fafc;\n".data)
  ++ ("            border: 1px solid #e2e8f0;\n            border-radius: 8px;\n".data)
  ++ ("            padding: 20px 24px;\n            margin: 20px 0 32px 0;\n        \x7d\n".data)
  ++ ("        .toc h2 \x7b\n            margin-top: 0;\n            border-left: none;\n".data)
  ++ ("            padding-left: 0;\n            font-size: 20px;\n            color: #1f2937;\n".data)
  ++ ("        \x7d\n        .toc ul \x7b\n            list-style: none;\n            padding-left: 0;\n".data)
  ++ ("            margin: 12px 0 0 0;\n        \x7d\n        .toc li \x7b\n            margin: 6px 0;\n".data)
  ++ ("            font-size: 14px;\n        \x7d\n        .toc li ul \x7b\n".data)
  ++ ("            padding-left: 20px;\n            margin: 4px 0;\n        \x7d\n".data)
  ++ ("        .toc li ul li \x7b\n            font-size: 13px;\n            color: #4b5563;\n".data)
  ++ ("        \x7d\n        .toc a \x7b\n            color: #2563eb;\n            text-decoration: none;\n".data)
  ++ ("        \x7d\n        .toc a:hover \x7b\n            text-decoration: underline;\n        \x7d\n".data)
  ++ ("        /* Multi-column image layout */\n        .image-columns \x7b\n            display: flex;\n".data)
  ++ ("            flex-wrap: wrap;\n            gap: 16px;\n            justify-content: center;\n".data)
  ++ ("            margin: 20px 0;\n        \x7d\n        .image-columns .column-item \x7b\n".data)
  ++ ("            flex: 1 1 calc(50% - 16px);\n            max-width: calc(50% - 8px);\n".data)
  ++ ("            margin: 0;\n        \x7d\n        .image-columns .column-item img \x7b\n".data)
  ++ ("            max-height: 400px;\n            width: auto;\n            max-width: 100%;\n".data)
  ++ ("            object-fit: contain;\n            border: none;\n        \x7d\n".data)
  ++ ("        .image-columns figcaption \x7b\n            font-size: 11px;\n".data)
  ++ ("            text-align: center;\n        \x7d\n        /* Tall image constraint */\n".data)
  ++ ("        figure img \x7b\n            max-height: 500px;\n            width: auto;\n".data)
  ++ ("            object-fit: contain;\n        \x7d\n    </style>\n</head>\n<body>\n    <h1>".data)

def html_template_part2 : Str :=
  ("</h1>\n    <div class=\"metadata\">\n        <p>Date: ".data)

def html_template_part3 : Str :=
  (" | Author: ".data)

def html_template_part4 : Str :=
  ("</p>\n    </div>\n    <div class=\"content\">\n        ".data)

def html_template_part5 : Str :=
  ("\n    </div>\n    ".data)

def html_template_part6 : Str :=
  ("\n    ".data)

def html_template_part7 : Str :=
  ("\n</body>\n</html>".data)

/-! ## The document assembler (`generate_html_report`) -/

/-- Caller-supplied descriptor of one figure or diagram: a path and its
caption (`img['path']` and `img.get('caption', '')`). -/
structure Descriptor where
  path : Str
  caption : Str
deriving DecidableEq, Repr

/-- One embedded figure of the Figures/Diagrams sections, with its label and
1-based number, exactly as the source f-string lays it out (including its
newlines and indentation). -/
def report_figure (label : Str) (num : Nat) (data_uri caption : Str) : Str :=
  ("\n                    <figure>\n                        <img src=\"".data)
    ++ data_uri ++ ("\" alt=\"".data) ++ caption
    ++ ("\"/>\n                        <figcaption>".data) ++ label ++ (" ".data)
    ++ natStr num ++ (": ".data) ++ caption
    ++ ("</figcaption>\n                    </figure>\n                    ".data)

/-- The loop body shared by the Figures and Diagrams sections of
`generate_html_report`: the `i`-numbered descriptor is embedded only when its
file exists and its suffix is `.svg`; every other descriptor contributes
nothing (silent skip, both `continue` paths of the source loop). -/
def report_item (fs : Fs) (label : Str) (p : Nat × Descriptor) : Str :=
  if fs.pathExists p.2.path then
    if path_suffix p.2.path = (".svg".data) then
      report_figure label (p.1 + 1) (svg_to_data_uri fs p.2.path) p.2.caption
    else []
  else []

/-- The Figures section of `generate_html_report`: `enumerate` numbers every
descriptor (skipped ones included, so the shown numbers can have gaps). -/
def images_section (fs : Fs) (images : List Descriptor) : Str :=
  if images.isEmpty then []
  else
    ("<div class=\"images-section\"><h2>Figures</h2>".data)
      ++ ((images.enum).map (report_item fs ("Figure".data))).flatten
      ++ ("</div>".data)

/-- The Diagrams section, built exactly like the Figures section. -/
def diagrams_section (fs : Fs) (diagrams : List Descriptor) : Str :=
  if diagrams.isEmpty then []
  else
    ("<div class=\"diagrams-section\"><h2>Diagrams</h2>".data)
      ++ ((diagrams.enum).map (report_item fs ("Diagram".data))).flatten
      ++ ("</div>".data)

/-- The optional metadata dict of `generate_html_report`. -/
structure Metadata where
  date : Option Str
  author : Option Str

/-- Embedding of `generate_html_report`; `now` stands for the
`datetime.now().strftime('%Y-%m-%d')` default date.  The template literals
`html_template_part0` … `part7` are the f-string of the source split at its
seven interpolation points. -/
def generate_html_report (fs : Fs) (now : Str) (title content : Str)
    (images diagrams : List Descriptor) (metadata : Metadata)
    (bp : Option Str) : Str :=
  html_template_part0 ++ title ++ html_template_part1 ++ title
    ++ html_template_part2 ++ metadata.date.getD now
    ++ html_template_part3 ++ metadata.author.getD ("Research Report Generator".data)
    ++ html_template_part4 ++ markdown_to_html fs content bp true
    ++ html_template_part5 ++ diagrams_section fs diagrams
    ++ html_template_part6 ++ images_section fs images
    ++ html_template_part7

/-! ## Concrete environments used in witnesses and counterexamples -/

/-- A filesystem on which no path exists. -/
def fs_empty : Fs := ⟨fun _ => false, fun _ => []⟩

/-- A filesystem holding exactly one PNG file. -/
def fs_png : Fs :=
  ⟨fun p => p = ("fig.png".data), fun _ => ("QUJD".data)⟩

/-- A filesystem holding exactly one SVG file. -/
def fs_svg : Fs :=
  ⟨fun p => p = ("d.svg".data), fun _ => ("QUJD".data)⟩

/-! ## General lemmas about the scanners and `occursIn` -/

theorem isPrefixOf_self_append (l r : Str) : l.isPrefixOf (l ++ r) = true := by
  rw [List.isPrefixOf_iff_prefix]
  exact ⟨r, rfl⟩

theorem occursIn_here (p r : Str) : occursIn p (p ++ r) = true := by
  cases p with
  | nil =>
    cases r with
    | nil => rfl
    | cons c cs => simp [occursIn, List.isPrefixOf]
  | cons c cs =>
    show occursIn (c :: cs) (c :: (cs ++ r)) = true
    have h := isPrefixOf_self_append (c :: cs) r
    simp [occursIn, h]

theorem occursIn_append_right (p s t : Str) (h : occursIn p t = true) :
    occursIn p (s ++ t) = true := by
  induction s with
  | nil => simpa
  | cons c cs ih =>
    show occursIn p (c :: (cs ++ t)) = true
    simp [occursIn]
    exact Or.inr (by simpa using ih)

theorem occursIn_mid (p l r : Str) : occursIn p (l ++ (p ++ r)) = true :=
  occursIn_append_right p l (p ++ r) (occursIn_here p r)

theorem joinWith_cons_flat (sep x : Str) (xs : List Str) :
    joinWith sep (x :: xs) = x ++ (xs.map (fun y => sep ++ y)).flatten := by
  induction xs generalizing x with
  | nil => simp [joinWith]
  | cons y ys ih =>
    show x ++ sep ++ joinWith sep (y :: ys) = _
    rw [ih y]
    simp

/-! ## Claim C1: the end-to-end example -/

/-- C1: for the input `"## Intro\n\nHello **world**.\n\n| A | B |\n|---|---|\n| 1 | 2 |"`
with TOC generation enabled, the full pipeline `markdown_to_html` produces
output containing a TOC container linking to the anchor `intro`, an `h2` tag
bound to id `intro` with title Intro, a paragraph with bold-rendered
"world", and a table with header cells A and B and exactly one body row with
cells 1 and 2 (the emitted `tbody` holds exactly that one row). -/
theorem end_to_end_example_pipeline :
    occursIn (("<nav class=\"toc\">").data)
      (markdown_to_html fs_empty
        (("## Intro\n\nHello **world**.\n\n| A | B |\n|---|---|\n| 1 | 2 |").data)
        none true) = true
    ∧ occursIn (("<a href=\"#intro\">Intro</a>").data)
        (markdown_to_html fs_empty
          (("## Intro\n\nHello **world**.\n\n| A | B |\n|---|---|\n| 1 | 2 |").data)
          none true) = true
    ∧ occursIn (("<h2 id=\"intro\">Intro</h2>").data)
        (markdown_to_html fs_empty
          (("## Intro\n\nHello **world**.\n\n| A | B |\n|---|---|\n| 1 | 2 |").data)
          none true) = true
    ∧ occursIn (("<p>Hello <strong>world</strong>.</p>").data)
        (markdown_to_html fs_empty
          (("## Intro\n\nHello **world**.\n\n| A | B |\n|---|---|\n| 1 | 2 |").data)
          none true) = true
    ∧ occursIn (("<thead><tr>\n<th>A</th>\n<th>B</th>\n</tr></thead>").data)
        (markdown_to_html fs_empty
          (("## Intro\n\nHello **world**.\n\n| A | B |\n|---|---|\n| 1 | 2 |").data)
          none true) = true
    ∧ occursIn (("<tbody>\n<tr>\n<td>1</td>\n<td>2</td>\n</tr>\n</tbody></table>").data)
        (markdown_to_html fs_empty
          (("## Intro\n\nHello **world**.\n\n| A | B |\n|---|---|\n| 1 | 2 |").data)
          none true) = true := by
  refine ⟨?_, ?_, ?_, ?_, ?_, ?_⟩ <;> decide

/-! ## Claim C7: table flush thresholds -/

theorem joinWith_map_tail (nl A B C : Str) (f : Str → Str) :
    ∀ (cells : List Str) (x : Str),
      joinWith nl (x :: (cells.map f ++ (A :: B :: [C])))
        = x ++ (cells.map (fun c => nl ++ f c)).flatten
          ++ nl ++ A ++ nl ++ B ++ nl ++ C := by
  intro cells
  induction cells with
  | nil =>
    intro x
    simp [joinWith, List.append_assoc]
  | cons c cs ih =>
    intro x
    show joinWith nl (x :: f c :: (cs.map f ++ (A :: B :: [C]))) = _
    have hpeel : joinWith nl (x :: f c :: (cs.map f ++ (A :: B :: [C])))
        = x ++ nl ++ joinWith nl (f c :: (cs.map f ++ (A :: B :: [C]))) := rfl
    rw [hpeel, ih (f c)]
    simp [List.append_assoc]

/-- C7: a run of exactly one accumulated pipe-delimited line is emitted by
`convert_table` as plain text (the line itself, no error possible), and a
run of exactly two accumulated lines (header plus separator) is emitted as a
table whose header cells come from the first row and whose `tbody` is
immediately closed (zero body rows). -/
theorem table_flush_thresholds :
    (∀ l : Str, convert_table [l] = l)
    ∧ (∀ r1 r2 : Str,
        convert_table [r1, r2]
          = ("<table>".data) ++ ("\n".data) ++ ("<thead><tr>".data)
            ++ ((row_cells r1).map
                  (fun c => ("\n".data) ++ (("<th>".data) ++ c ++ ("</th>".data)))).flatten
            ++ ("\n".data) ++ ("</tr></thead>".data) ++ ("\n".data) ++ ("<tbody>".data)
            ++ ("\n".data) ++ ("</tbody></table>".data)) := by
  constructor
  · intro l
    simp [convert_table, joinWith]
  · intro r1 r2
    show convert_table [r1, r2] = _
    unfold convert_table
    rw [if_neg (by simp)]
    rw [show ((([r1, r2].drop 2).map (fun line =>
          if (row_cells line).isEmpty then []
          else ("<tr>".data)
            :: (row_cells line).map (fun c => ("<td>".data) ++ c ++ ("</td>".data))
            ++ [("</tr>".data)])).flatten : List Str) = [] from rfl]
    rw [List.append_nil]
    show joinWith ("\n".data)
        (("<table>".data) :: ("<thead><tr>".data)
          :: (((row_cells ([r1, r2].headD [])).map
                (fun c => ("<th>".data) ++ c ++ ("</th>".data))
               ++ [("</tr></thead>".data), ("<tbody>".data)]) ++ [("</tbody></table>".data)])) = _
    rw [List.append_assoc]
    show joinWith ("\n".data)
        (("<table>".data) :: ("<thead><tr>".data)
          :: ((row_cells r1).map (fun c => ("<th>".data) ++ c ++ ("</th>".data))
              ++ (("</tr></thead>".data) :: ("<tbody>".data) :: [("</tbody></table>".data)]))) = _
    have hpeel : joinWith ("\n".data)
        (("<table>".data) :: ("<thead><tr>".data)
          :: ((row_cells r1).map (fun c => ("<th>".data) ++ c ++ ("</th>".data))
              ++ (("</tr></thead>".data) :: ("<tbody>".data) :: [("</tbody></table>".data)])))
        = ("<table>".data) ++ ("\n".data)
          ++ joinWith ("\n".data)
              (("<thead><tr>".data)
                :: ((row_cells r1).map (fun c => ("<th>".data) ++ c ++ ("</th>".data))
                    ++ (("</tr></thead>".data) :: ("<tbody>".data)
                        :: [("</tbody></table>".data)]))) := rfl
    rw [hpeel, joinWith_map_tail]
    simp [List.append_assoc]

/-! ## Claim C8: the paragraph wrapper -/

/-- C8 counterexample: the block `<em>hi</em>` does not begin with one of
the recognized structural tags, yet the paragraph wrapper passes it through
unwrapped (the `startswith('<')` catch-all), contradicting the claim that
every other non-empty block is wrapped as a paragraph. -/
theorem paragraph_wrapper_counterexample :
    paragraphs_stage (("<em>hi</em>").data) = (("<em>hi</em>").data)
    ∧ starts_struct_tag (("<em>hi</em>").data) = false
    ∧ paragraphs_stage (("<em>hi</em>").data) ≠ (("<p><em>hi</em></p>").data) := by
  refine ⟨by decide, by decide, by decide⟩

/-- The per-block rendering rule of the paragraph wrapper as amended: empty
blocks are dropped; a block beginning with a recognized structural tag — or
with any `<` at all — is passed through with surrounding whitespace
stripped; every other block is wrapped as exactly one paragraph, its
internal newlines preserved by the stripping. -/
def render_block_spec (b : Str) : Option Str :=
  if (pyStrip b).isEmpty then none
  else if starts_struct_tag (pyStrip b) || (pyStrip b).head? = some '<' then some (pyStrip b)
  else some (("<p>".data) ++ pyStrip b ++ ("</p>".data))

theorem para_go_eq_filterMap (bs : List Str) :
    para_go bs = bs.filterMap render_block_spec := by
  induction bs with
  | nil => rfl
  | cons b bs ih =>
    by_cases h1 : (pyStrip b).isEmpty
    · have hr : render_block_spec b = none := by simp [render_block_spec, h1]
      simp [para_go, h1, hr, List.filterMap_cons, ih]
    · by_cases h2 : starts_struct_tag (pyStrip b)
      · have hr : render_block_spec b = some (pyStrip b) := by
          simp [render_block_spec, h1, h2]
        simp [para_go, h1, h2, hr, List.filterMap_cons, ih]
      · by_cases h3 : (pyStrip b).head? = some '<'
        · have hr : render_block_spec b = some (pyStrip b) := by
            simp [render_block_spec, h1, h2, h3]
          simp [para_go, h1, h2, h3, hr, List.filterMap_cons, ih]
        · have hr : render_block_spec b
              = some (("<p>".data) ++ pyStrip b ++ ("</p>".data)) := by
            simp [render_block_spec, h1, h2, h3]
          simp [para_go, h1, h2, h3, hr, List.filterMap_cons, ih]

/-- C8 (amended): the paragraph-wrapping stage renders each blank-line
block by the rule `render_block_spec` — empty blocks dropped, blocks
beginning with a recognized structural tag or with any `<` passed through
stripped, all other blocks wrapped as exactly one paragraph with internal
newlines preserved — and joins the results with newlines. -/
theorem paragraph_wrapper_characterized (text : Str) :
    paragraphs_stage text
      = joinWith ("\n".data)
          ((split_on_seq ("\n\n".data) text).filterMap render_block_spec) := by
  unfold paragraphs_stage
  rw [para_go_eq_filterMap]

/-! ## Claim C10: wholesale replacement of multi-image lines -/

/-- C10: a physical line holding two or more image references (mixed with
any other text) is replaced wholesale by the column-group fragment: the
output is a function of the extracted references only, so every
non-image character of the line is discarded. -/
theorem inline_columns_wholesale_replacement (fs : Fs) (bp : Option Str)
    (line : Str) (h2 : 2 ≤ (find_images line).length) :
    process_inline_columns fs bp line = column_group_html fs bp (find_images line)
    ∧ ∀ line2 : Str, find_images line2 = find_images line →
        process_inline_columns fs bp line2 = process_inline_columns fs bp line := by
  constructor
  · unfold process_inline_columns
    rw [if_neg (by omega)]
  · intro line2 heq
    unfold process_inline_columns
    rw [heq, if_neg (by omega), if_neg (by omega)]

/-- Witness for C10 at a concrete line: the surrounding text "Left", "mid",
"right" disappears from the output, which is exactly the column group of the
two (missing) images. -/
theorem inline_columns_wholesale_replacement_witness :
    process_inline_columns fs_empty none
        (("Left ![a](x.png) mid ![b](y.png) right").data)
      = column_group_html fs_empty none
          (find_images (("Left ![a](x.png) mid ![b](y.png) right").data)) :=
  (inline_columns_wholesale_replacement fs_empty none
    (("Left ![a](x.png) mid ![b](y.png) right").data) (by decide)).1

/-! ## Counterexamples for C3, C5, C6, C9 -/

/-- C3 counterexample: in the document `## A`, `## A 1`, `## A` the third
header derives base slug `a` and is suffixed to `a-1`, which collides with
the bare anchor `a-1` of the second header: two header lines of the
rewritten text carry the same `{#a-1}` anchor. -/
theorem anchor_uniqueness_counterexample :
    (generate_toc (("## A\n## A 1\n## A").data)).2
        = (("## A \x7b#a\x7d\n## A 1 \x7b#a-1\x7d\n## A \x7b#a-1\x7d").data)
    ∧ ¬ ((toc_anchors (("## A\n## A 1\n## A").data)).map Prod.snd).Nodup := by
  refine ⟨by decide, by decide⟩

/-- C5 counterexample: a line with two image references, both unresolvable,
is consumed by the inferred column group, which silently drops missing
images: the full conversion yields an empty column container, with no
missing-image placeholder and no alt text for either reference. -/
theorem missing_image_column_group_counterexample :
    markdown_to_html_internal fs_empty none
        (("![missing1](a.png) ![missing2](b.png)").data)
      = (("<div class=\"image-columns\"></div>").data)
    ∧ occursIn (("missing1").data)
        (markdown_to_html_internal fs_empty none
          (("![missing1](a.png) ![missing2](b.png)").data)) = false
    ∧ occursIn (("missing-image").data)
        (markdown_to_html_internal fs_empty none
          (("![missing1](a.png) ![missing2](b.png)").data)) = false := by
  refine ⟨by decide, by decide, by decide⟩

/-- C6 counterexample: on `## !!!`, `## -`, `## - 1` the first run assigns
the distinct anchors ``, `-`, `--1`, but its rewritten text gives the first
header the unstrippable annotation `{#}` (empty anchor), so the second run
derives a different base slug for it and assigns `-`, `--1`, `--1`: a
duplicate anchor is introduced. -/
theorem toc_second_run_counterexample :
    ((toc_anchors (("## !!!\n## -\n## - 1").data)).map Prod.snd).Nodup
    ∧ ¬ ((toc_anchors
          ((generate_toc (("## !!!\n## -\n## - 1").data)).2)).map Prod.snd).Nodup := by
  refine ⟨by decide, by decide⟩

/-- C9 counterexample: a figure descriptor whose file exists but is a PNG is
silently skipped by the Figures section (only `.svg` files are embedded), so
the claim "embeds it as a captioned figure when the file exists" fails. -/
theorem figures_section_counterexample :
    fs_png.pathExists (("fig.png").data) = true
    ∧ images_section fs_png [⟨("fig.png").data, ("A caption").data⟩]
        = (("<div class=\"images-section\"><h2>Figures</h2></div>").data)
    ∧ occursIn (("A caption").data)
        (images_section fs_png [⟨("fig.png").data, ("A caption").data⟩]) = false := by
  refine ⟨by decide, by decide, by decide⟩

/-! ## Claims C2 and C3: anchor collision handling -/

/-- Value of a decimal digit string (left inverse of `natStr`). -/
def digitsVal (s : Str) : Nat :=
  s.foldl (fun a c => 10 * a + (c.toNat - 48)) 0

theorem digitChar_toNat {n : Nat} (h : n < 10) : (digitChar n).toNat = 48 + n := by
  interval_cases n <;> decide

theorem digitsVal_append_digit (s : Str) (c : Char) :
    digitsVal (s ++ [c]) = 10 * digitsVal s + (c.toNat - 48) := by
  unfold digitsVal
  rw [List.foldl_append]
  rfl

theorem digitsVal_natStr : ∀ n : Nat, digitsVal (natStr n) = n := by
  intro n
  induction n using Nat.strong_induction_on with
  | _ n ih =>
    rw [natStr_eq]
    by_cases h : n < 10
    · rw [if_pos h]
      unfold digitsVal
      simp [digitChar_toNat h]
    · rw [if_neg h]
      have hd : n / 10 < n := Nat.div_lt_self (by omega) (by omega)
      rw [digitsVal_append_digit, ih _ hd, digitChar_toNat (Nat.mod_lt _ (by omega))]
      omega

theorem natStr_inj {m n : Nat} (h : natStr m = natStr n) : m = n := by
  have hm := digitsVal_natStr m
  rw [h, digitsVal_natStr] at hm
  omega

theorem lookupCount_setCount (c : Counts) (k : Str) (v : Nat) (b : Str) :
    lookupCount (setCount c k v) b = if k = b then some v else lookupCount c b := by
  induction c with
  | nil =>
    by_cases h : k = b <;> simp [setCount, lookupCount, h]
  | cons p rest ih =>
    obtain ⟨pk, pv⟩ := p
    by_cases h1 : pk = k
    · subst h1
      simp [setCount]
      by_cases h2 : pk = b <;> simp [lookupCount, h2]
    · simp [setCount, h1]
      by_cases h2 : pk = b
      · subst h2
        simp [lookupCount]
        rw [if_neg (fun hc => h1 hc.symm)]
      · simp [lookupCount, h2, ih]

/-- The anchor the spec's collision policy prescribes for the k-th occurrence
(0-based) of a base slug: the bare slug for the first occurrence, `slug-k`
for the k-th collision. -/
def spec_slug_suffix (b : Str) (k : Nat) : Str :=
  if k = 0 then b else b ++ '-' :: natStr k

theorem spec_slug_suffix_inj (b : Str) {k1 k2 : Nat}
    (h : spec_slug_suffix b k1 = spec_slug_suffix b k2) : k1 = k2 := by
  unfold spec_slug_suffix at h
  by_cases h1 : k1 = 0 <;> by_cases h2 : k2 = 0
  · omega
  · rw [if_pos h1, if_neg h2] at h
    have := congrArg List.length h
    simp at this
  · rw [if_neg h1, if_pos h2] at h
    have := congrArg List.length h
    simp at this
  · rw [if_neg h1, if_neg h2] at h
    have h3 : ('-' :: natStr k1 : Str) = '-' :: natStr k2 :=
      List.append_cancel_left h
    simp at h3
    exact natStr_inj h3

theorem toc_go_cons_none {line : Str} (counts : Counts) (rest : List Str)
    (h : header_match line = none) :
    toc_go counts (line :: rest)
      = ((toc_go counts rest).1, line :: (toc_go counts rest).2) := by
  simp [toc_go, h]

theorem toc_go_cons_some {line : Str} {k : Nat} {title : Str}
    (counts : Counts) (rest : List Str)
    (h : header_match line = some (k, title)) :
    toc_go counts (line :: rest)
      = (toc_entry_of counts k title
           :: (toc_go (toc_counts_after counts title) rest).1,
         rewrite_header_line (toc_entry_of counts k title)
           :: (toc_go (toc_counts_after counts title) rest).2) := by
  simp [toc_go, h]

/-- The `header_counts` update of one qualifying header sets the key of its
base slug to the number of times that base slug was seen before. -/
theorem toc_counts_after_eq (counts : Counts) (title : Str) (hist : Str → Nat)
    (hinv : ∀ b, lookupCount counts b
      = if hist b = 0 then none else some (hist b - 1)) :
    toc_counts_after counts title
      = setCount counts (make_anchor (strip_anchors title))
          (hist (make_anchor (strip_anchors title))) := by
  unfold toc_counts_after assign_anchor
  cases hl : lookupCount counts (make_anchor (strip_anchors title)) with
  | none =>
    have := hinv (make_anchor (strip_anchors title))
    rw [hl] at this
    split at this
    · next h0 => simp [h0]
    · simp at this
  | some n =>
    have := hinv (make_anchor (strip_anchors title))
    rw [hl] at this
    split at this
    · simp at this
    · next h0 =>
      simp at this
      show setCount counts (make_anchor (strip_anchors title)) (n + 1) = _
      rw [show n + 1 = hist (make_anchor (strip_anchors title)) from by omega]

/-- Invariant proof for the collision policy: with `header_counts` faithful
to the history `hist` (how often each base slug was already assigned), the
anchor of the i-th entry of the loop is the spec formula applied to its base
slug and the number of earlier entries with the same base slug. -/
theorem toc_go_anchor_formula :
    ∀ (lines : List Str) (counts : Counts) (hist : Str → Nat),
      (∀ b, lookupCount counts b = if hist b = 0 then none else some (hist b - 1)) →
      ∀ (i : Nat) (e : TocEntry), ((toc_go counts lines).1)[i]? = some e →
        e.anchor = spec_slug_suffix e.base
          (hist e.base
            + ((((toc_go counts lines).1).take i).filter
                 (fun x => x.base = e.base)).length) := by
  intro lines
  induction lines with
  | nil =>
    intro counts hist hinv i e he
    simp [toc_go] at he
  | cons line rest ih =>
    intro counts hist hinv i e he
    cases hm : header_match line with
    | none =>
      rw [toc_go_cons_none counts rest hm] at he ⊢
      exact ih counts hist hinv i e he
    | some p =>
      obtain ⟨k, title⟩ := p
      rw [toc_go_cons_some counts rest hm] at he ⊢
      cases i with
      | zero =>
        simp at he
        subst he
        simp only [List.take_zero, List.filter_nil, List.length_nil, Nat.add_zero]
        show (toc_entry_of counts k title).anchor = _
        unfold toc_entry_of assign_anchor
        cases hl : lookupCount counts (make_anchor (strip_anchors title)) with
        | none =>
          have := hinv (make_anchor (strip_anchors title))
          rw [hl] at this
          split at this
          · next h0 => simp [spec_slug_suffix, h0]
          · simp at this
        | some n =>
          have := hinv (make_anchor (strip_anchors title))
          rw [hl] at this
          split at this
          · simp at this
          · next h0 =>
            simp at this
            unfold spec_slug_suffix
            rw [if_neg h0]
            show make_anchor (strip_anchors title) ++ '-' :: natStr (n + 1) = _
            rw [show n + 1 = hist (make_anchor (strip_anchors title)) from by omega]
      | succ j =>
        simp only [List.getElem?_cons_succ] at he
        have hcounts := toc_counts_after_eq counts title hist hinv
        have hinv2 : ∀ b, lookupCount (toc_counts_after counts title) b
            = if (if b = make_anchor (strip_anchors title)
                  then hist b + 1 else hist b) = 0
              then none
              else some ((if b = make_anchor (strip_anchors title)
                          then hist b + 1 else hist b) - 1) := by
          intro b
          rw [hcounts, lookupCount_setCount]
          by_cases hb : b = make_anchor (strip_anchors title)
          · rw [if_pos hb.symm]
            simp only [if_pos hb]
            rw [if_neg (by omega)]
            simp [hb]
          · rw [if_neg (fun hc => hb hc.symm)]
            simp only [if_neg hb]
            exact hinv b
        have hmain := ih (toc_counts_after counts title)
            (fun b => if b = make_anchor (strip_anchors title) then hist b + 1 else hist b)
            hinv2 j e he
        rw [hmain]
        congr 1
        rw [List.take_succ_cons, List.filter_cons]
        by_cases hbe : e.base = make_anchor (strip_anchors title)
        · have hpred : ((toc_entry_of counts k title).base = e.base) := by
            simp [toc_entry_of, hbe]
          simp [hbe, hpred]
          omega
        · have hpred : ¬((toc_entry_of counts k title).base = e.base) := by
            simp [toc_entry_of]
            exact fun hc => hbe hc.symm
          simp [hbe, hpred]

/-- C2: for every document, the TOC extractor assigns each qualifying header
the anchor the collision policy prescribes for its base slug: the bare slug
when no earlier header in the document derived the same base slug, and
`slug-N` when exactly N earlier headers did (N starting at 1 for the first
collision). -/
theorem anchor_collision_suffix_assignment (md : Str) (i : Nat) (e : TocEntry)
    (h : (toc_entries md)[i]? = some e) :
    e.anchor = spec_slug_suffix e.base
      (((toc_entries md).take i).filter (fun x => x.base = e.base)).length := by
  have hx := toc_go_anchor_formula (splitOnChar '\n' md) [] (fun _ => 0)
      (by intro b; simp [lookupCount]) i e h
  simpa using hx

/-- Witness for C2: in `## A`, `## B`, `## A`, `## A` the fourth header is
the second collision on base slug `a` and receives `a-2`. -/
theorem anchor_collision_suffix_assignment_witness :
    ("a-2".data)
      = spec_slug_suffix ("a".data)
          ((((toc_entries (("## A\n## B\n## A\n## A").data)).take 3).filter
             (fun x => x.base = ("a".data))).length) :=
  anchor_collision_suffix_assignment (("## A\n## B\n## A\n## A").data) 3
    ⟨2, ("A".data), ("a".data), ("a-2".data)⟩ (by decide)

/-- C3 (amended): two distinct qualifying headers that derive the same base
slug always receive distinct anchors (bare, `slug-1`, `slug-2`, … in
document order); uniqueness can still fail across different base slugs, as
the counterexample shows, because a suffixed anchor may coincide with
another header's bare slug. -/
theorem anchor_same_base_distinct (md : Str) (i j : Nat) (ei ej : TocEntry)
    (hij : i < j) (hi : (toc_entries md)[i]? = some ei)
    (hj : (toc_entries md)[j]? = some ej) (hb : ei.base = ej.base) :
    ei.anchor ≠ ej.anchor := by
  have hfi := toc_go_anchor_formula (splitOnChar '\n' md) [] (fun _ => 0)
      (by intro b; simp [lookupCount]) i ei hi
  have hfj := toc_go_anchor_formula (splitOnChar '\n' md) [] (fun _ => 0)
      (by intro b; simp [lookupCount]) j ej hj
  have hent : (toc_go [] (splitOnChar '\n' md)).1 = toc_entries md := rfl
  rw [hent] at hfi hfj
  simp only [Nat.zero_add] at hfi hfj
  have hilen := (List.getElem?_eq_some.mp hi).1
  have hval : (toc_entries md)[i] = ei := (List.getElem?_eq_some.mp hi).2
  -- the count strictly grows from position i to position j
  have hcount :
      (((toc_entries md).take i).filter (fun x => x.base = ej.base)).length
        < (((toc_entries md).take j).filter (fun x => x.base = ej.base)).length := by
    have hsplit : (toc_entries md).take j
        = (toc_entries md).take i ++ ((toc_entries md).drop i).take (j - i) := by
      rw [← List.take_add]
      congr 1
      omega
    have hdrop : (toc_entries md).drop i
        = ei :: (toc_entries md).drop (i + 1) := by
      rw [List.drop_eq_getElem_cons hilen, hval]
    rw [hsplit, hdrop, List.filter_append, List.length_append]
    obtain ⟨m, hm⟩ : ∃ m, j - i = m + 1 := ⟨j - i - 1, by omega⟩
    rw [hm, List.take_succ_cons, List.filter_cons]
    rw [if_pos (by simp [hb])]
    simp
  intro hcontra
  have : ei.base = ej.base := hb
  rw [hcontra, hb] at hfi
  rw [hfi] at hfj
  have := spec_slug_suffix_inj ej.base hfj
  simp [hb] at hcount
  omega

/-- Witness for C3 (amended): in `## A`, `## B`, `## A` the first and third
headers share base slug `a` and receive the distinct anchors `a` and `a-1`. -/
theorem anchor_same_base_distinct_witness :
    ("a".data) ≠ ("a-1".data) :=
  anchor_same_base_distinct (("## A\n## B\n## A").data) 0 2
    ⟨2, ("A".data), ("a".data), ("a".data)⟩
    ⟨2, ("A".data), ("a".data), ("a-1".data)⟩
    (by omega) (by decide) (by decide) (by decide)

/-! ## Claims C4 and C5: column heuristic and missing images -/

/-- Characters of a base64 payload. -/
def isB64 (c : Char) : Bool :=
  ('A' ≤ c && c ≤ 'Z') || ('a' ≤ c && c ≤ 'z') || ('0' ≤ c && c ≤ '9')
    || c = '+' || c = '/' || c = '='

/-- A filesystem whose encoded payloads really are base64 text (true of any
actual base64 encoder; needed because a fantastical payload could smuggle an
image reference back into the generated markup). -/
def FsB64 (fs : Fs) : Prop :=
  ∀ p c, c ∈ fs.contentB64 p → isB64 c = true

theorem mem_takeWhile {p : Char → Bool} {l : Str} {x : Char}
    (h : x ∈ l.takeWhile p) : p x = true := by
  induction l with
  | nil => simp at h
  | cons c cs ih =>
    rw [List.takeWhile_cons] at h
    by_cases hc : p c
    · rw [if_pos hc] at h
      rcases List.mem_cons.mp h with h1 | h1
      · rw [h1]; exact hc
      · exact ih h1
    · rw [if_neg hc] at h
      simp at h

theorem dropWhile_eq_nil {p : Char → Bool} {l : Str}
    (h : ∀ x ∈ l, p x = true) : l.dropWhile p = [] := by
  induction l with
  | nil => rfl
  | cons c cs ih =>
    rw [List.dropWhile_cons, if_pos (h c (by simp))]
    exact ih (fun x hx => h x (by simp [hx]))

/-- The alt text of a scanned image reference contains no `]` (it is a run of
the class `[^\]]*`). -/
theorem try_image_alt {s : Str} {p : (Str × Str) × Str} (h : try_image s = some p) :
    ∀ c ∈ p.1.1, c ≠ ']' := by
  unfold try_image at h
  split at h
  · split at h
    · split at h
      · simp at h
      · next alt u heq =>
        have h1 := (after_char_some heq).1
        split at h
        · split at h
          · split at h
            · simp at h
            · split at h
              · simp at h
              · simp only [Option.some.injEq] at h
                intro c hc
                rw [← h] at hc
                simp only at hc
                rw [h1] at hc
                have := mem_takeWhile hc
                simpa using this
          · simp at h
        · simp at h
    · simp at h
  · simp at h

theorem find_images_cons_some {c : Char} {cs : Str} {p : (Str × Str) × Str}
    (h : try_image (c :: cs) = some p) :
    find_images (c :: cs) = p.1 :: find_images p.2 :=
  scan_all_some try_image_shrinking h

theorem find_images_cons_none {c : Char} {cs : Str}
    (h : try_image (c :: cs) = none) :
    find_images (c :: cs) = find_images cs :=
  scan_all_none try_image_shrinking h

/-- Membership in a concrete `]`-free segment. -/
theorem ne_of_not_mem {l : Str} {c : Char} (hc : c ∈ l) (hl : ']' ∉ l) :
    c ≠ ']' := fun h => hl (h ▸ hc)

theorem try_image_none_of_no_bracket {s : Str} (hs : ∀ x ∈ s, x ≠ ']') :
    try_image s = none := by
  cases s with
  | nil => rfl
  | cons a s1 =>
    cases s1 with
    | nil => rfl
    | cons b t =>
      have hac : after_char ']' t = none := by
        unfold after_char
        rw [dropWhile_eq_nil]
        intro x hx
        have := hs x (by simp [hx])
        simpa using this
      simp only [try_image, hac, ite_self]

/-- A text with no `]` contains no image reference. -/
theorem find_images_of_no_bracket :
    ∀ s : Str, (∀ x ∈ s, x ≠ ']') → find_images s = [] := by
  intro s
  induction s with
  | nil => intro _; rfl
  | cons c0 cs ih =>
    intro hs
    rw [find_images_cons_none (try_image_none_of_no_bracket hs)]
    exact ih (fun x hx => hs x (by simp [hx]))

/-- Every alt text scanned from a line is `]`-free. -/
theorem find_images_alt_no_bracket :
    ∀ (s : Str) (ap : Str × Str), ap ∈ find_images s → ∀ c ∈ ap.1, c ≠ ']'
  | [] => by
    intro ap hap
    simp [find_images, scan_all, scan_all_go] at hap
  | c0 :: cs => by
    intro ap hap
    cases h : try_image (c0 :: cs) with
    | some p =>
      rw [find_images_cons_some h] at hap
      rcases List.mem_cons.mp hap with h1 | h1
      · subst h1
        exact try_image_alt h
      · exact find_images_alt_no_bracket p.2 ap h1
    | none =>
      rw [find_images_cons_none h] at hap
      exact find_images_alt_no_bracket cs ap hap
termination_by s => s.length
decreasing_by
  all_goals
    first
    | exact try_image_shrinking _ _ h
    | exact Nat.lt_succ_self cs.length
    | simp

theorem data_uri_no_bracket {fs : Fs} (hfs : FsB64 fs) (p : Str) :
    ∀ c ∈ image_to_data_uri fs p, c ≠ ']' := by
  intro c hc
  have hb64 : ∀ x ∈ fs.contentB64 p, x ≠ ']' := by
    intro x hx hcontra
    have := hfs p x hx
    rw [hcontra] at this
    simp [isB64] at this
  simp only [image_to_data_uri] at hc
  split_ifs at hc <;>
    first
    | exact absurd hc (List.not_mem_nil c)
    | (rcases List.mem_append.mp hc with h1 | h1
       · exact ne_of_not_mem h1 (by decide)
       · exact hb64 c h1)

theorem column_item_no_bracket {fs : Fs} (hfs : FsB64 fs) (bp : Option Str)
    (ap : Str × Str) (halt : ∀ c ∈ ap.1, c ≠ ']') :
    ∀ c ∈ column_item_html fs bp ap, c ≠ ']' := by
  intro c hc
  simp only [column_item_html] at hc
  split_ifs at hc
  all_goals
    first
    | exact absurd hc (List.not_mem_nil c)
    | (simp only [List.mem_append] at hc
       rcases hc with (((((h1 | h1) | h1) | h1) | h1) | h1) | h1
       · exact ne_of_not_mem h1 (by decide)
       · exact data_uri_no_bracket hfs _ c h1
       · exact ne_of_not_mem h1 (by decide)
       · exact halt c h1
       · exact ne_of_not_mem h1 (by decide)
       · exact halt c h1
       · exact ne_of_not_mem h1 (by decide))

theorem column_group_no_bracket {fs : Fs} (hfs : FsB64 fs) (bp : Option Str)
    (images : List (Str × Str))
    (halt : ∀ ap ∈ images, ∀ c ∈ ap.1, c ≠ ']') :
    ∀ c ∈ column_group_html fs bp images, c ≠ ']' := by
  intro c hc
  unfold column_group_html at hc
  simp only [List.mem_append] at hc
  rcases hc with (h1 | h1) | h1
  · exact ne_of_not_mem h1 (by decide)
  · rw [List.mem_flatten] at h1
    obtain ⟨l, hl, hcl⟩ := h1
    rw [List.mem_map] at hl
    obtain ⟨ap, hap, hrfl⟩ := hl
    rw [← hrfl] at hcl
    exact column_item_no_bracket hfs bp ap (halt ap hap) c hcl
  · exact ne_of_not_mem h1 (by decide)

/-- C4: a physical line with exactly one scanned image reference is never
replaced by a column group (the substitution leaves it unchanged, so it
remains for single-image substitution), while a line with two or more is
always replaced by one column-group fragment that consumes all the
references: the produced fragment contains no image reference at all, so
none of them can undergo single-image substitution afterwards.  (`FsB64`
excludes fantastical filesystem payloads that are not base64 text.) -/
theorem column_heuristic_single_vs_multi (fs : Fs) (bp : Option Str)
    (line : Str) (hfs : FsB64 fs) :
    ((find_images line).length = 1 → process_inline_columns fs bp line = line)
    ∧ (2 ≤ (find_images line).length →
        find_images (process_inline_columns fs bp line) = []) := by
  constructor
  · intro h1
    unfold process_inline_columns
    rw [if_pos (by omega)]
  · intro h2
    unfold process_inline_columns
    rw [if_neg (by omega)]
    apply find_images_of_no_bracket
    apply column_group_no_bracket hfs bp
    intro ap hap c hc
    exact find_images_alt_no_bracket line ap hap c hc

/-- Witness for C4 at a concrete multi-image line over the empty
filesystem: both references are consumed and none survives. -/
theorem column_heuristic_single_vs_multi_witness :
    find_images (process_inline_columns fs_empty none
        (("x ![a](p.png) y ![b](q.png) z").data)) = [] :=
  (column_heuristic_single_vs_multi fs_empty none
      (("x ![a](p.png) y ![b](q.png) z").data)
      (by intro p c hc; simp [fs_empty] at hc)).2 (by decide)

/-- Every reference scanned from a text has its `replace_image` rendering as
a contiguous segment of the image-substitution output. -/
theorem replace_image_occurs (fs : Fs) (bp : Option Str) :
    ∀ (text : Str) (ap : Str × Str), ap ∈ find_images text →
      occursIn (replace_image fs bp ap.1 ap.2) (process_images fs bp text) = true
  | [] => by
    intro ap hap
    simp [find_images, scan_all, scan_all_go] at hap
  | c0 :: cs => by
    intro ap hap
    cases h : try_image (c0 :: cs) with
    | some p =>
      have hstep : image_sub_try fs bp (c0 :: cs)
          = some (replace_image fs bp p.1.1 p.1.2, p.2) := by
        simp [image_sub_try, h]
      rw [show process_images fs bp (c0 :: cs)
          = replace_image fs bp p.1.1 p.1.2 ++ process_images fs bp p.2 from
        sub_scan_some (image_sub_try_shrinking fs bp) hstep]
      rw [find_images_cons_some h] at hap
      rcases List.mem_cons.mp hap with h1 | h1
      · rw [h1]
        exact occursIn_here _ _
      · exact occursIn_append_right _ _ _ (replace_image_occurs fs bp p.2 ap h1)
    | none =>
      have hstep : image_sub_try fs bp (c0 :: cs) = none := by
        simp [image_sub_try, h]
      rw [show process_images fs bp (c0 :: cs) = c0 :: process_images fs bp cs from
        sub_scan_none (image_sub_try_shrinking fs bp) hstep]
      rw [find_images_cons_none h] at hap
      exact occursIn_append_right _ [c0] _ (replace_image_occurs fs bp cs ap hap)
termination_by text => text.length
decreasing_by
  all_goals
    first
    | exact try_image_shrinking _ _ h
    | exact Nat.lt_succ_self cs.length
    | simp

/-- C5 (amended): an image reference whose file is missing never aborts the
conversion; under single-image substitution it yields the clearly marked
missing-image placeholder, which carries the alt text, inside the output —
but a missing reference inside a column group (explicit or inferred) is
silently dropped: a group whose images are all missing renders as an empty
column container. -/
theorem missing_image_placeholder_single (fs : Fs) (bp : Option Str)
    (text : Str) (ap : Str × Str) (hmem : ap ∈ find_images text)
    (hmiss : fs.pathExists (resolve_path bp ap.2) = false) :
    occursIn (replace_image.missing_image_html ap.1) (process_images fs bp text) = true
    ∧ occursIn ap.1 (replace_image.missing_image_html ap.1) = true
    ∧ ∀ imgs : List (Str × Str),
        (∀ bq ∈ imgs, fs.pathExists (resolve_path bp bq.2) = false) →
        column_group_html fs bp imgs = (("<div class=\"image-columns\"></div>").data) := by
  refine ⟨?_, ?_, ?_⟩
  · have h1 := replace_image_occurs fs bp text ap hmem
    rw [show replace_image fs bp ap.1 ap.2 = replace_image.missing_image_html ap.1 from by
      unfold replace_image
      rw [if_neg (by simp [hmiss])]] at h1
    exact h1
  · unfold replace_image.missing_image_html
    rw [List.append_assoc]
    exact occursIn_mid _ _ _
  · intro imgs himgs
    unfold column_group_html
    rw [show (imgs.map (column_item_html fs bp)).flatten = [] from ?_]
    · decide
    · induction imgs with
      | nil => rfl
      | cons hd tl ih =>
        simp only [List.map_cons, List.flatten_cons]
        rw [show column_item_html fs bp hd = [] from by
          unfold column_item_html
          rw [if_neg (by simp [himgs hd (by simp)])]]
        exact ih (fun bq hbq => himgs bq (by simp [hbq]))

/-- Witness for C5 (amended) at a concrete missing reference. -/
theorem missing_image_placeholder_single_witness :
    occursIn (replace_image.missing_image_html (("gone").data))
      (process_images fs_empty none (("x ![gone](img.png) y").data)) = true :=
  (missing_image_placeholder_single fs_empty none (("x ![gone](img.png) y").data)
    ((("gone").data), (("img.png").data)) (by decide) (by decide)).1

/-! ## Claim C9: the Figures/Diagrams sections -/

theorem occursIn_flatten {x : Str} {l : List Str} (hx : x ∈ l) (pre post : Str) :
    occursIn x (pre ++ l.flatten ++ post) = true := by
  obtain ⟨s, t, rfl⟩ := List.append_of_mem hx
  rw [List.flatten_append, List.flatten_cons]
  simp only [List.append_assoc]
  exact occursIn_append_right x pre _
    (occursIn_append_right x s.flatten _ (occursIn_here x (t.flatten ++ post)))

/-- C9 (amended): for each of the two caller-supplied lists, the assembler
embeds the `i`-th descriptor as a captioned, `i+1`-numbered figure of the
corresponding section (Figures for the images list, Diagrams for the diagrams
list) exactly when its file exists and its lowercased extension is `.svg`;
every other descriptor — missing file, or existing file with any other
extension — contributes nothing to either section (silent skip, no error;
the skip fact is about `report_item`, the loop body both sections share). -/
theorem report_sections_svg_only (fs : Fs) :
    (∀ (figs : List Descriptor) (i : Nat) (d : Descriptor), figs.get? i = some d →
        fs.pathExists d.path = true → path_suffix d.path = (".svg".data) →
        report_item fs (("Figure").data) (i, d)
            = report_figure (("Figure").data) (i + 1) (svg_to_data_uri fs d.path) d.caption
          ∧ occursIn (report_figure (("Figure").data) (i + 1) (svg_to_data_uri fs d.path) d.caption)
              (images_section fs figs) = true)
    ∧ (∀ (diags : List Descriptor) (j : Nat) (d : Descriptor), diags.get? j = some d →
        fs.pathExists d.path = true → path_suffix d.path = (".svg".data) →
        report_item fs (("Diagram").data) (j, d)
            = report_figure (("Diagram").data) (j + 1) (svg_to_data_uri fs d.path) d.caption
          ∧ occursIn (report_figure (("Diagram").data) (j + 1) (svg_to_data_uri fs d.path) d.caption)
              (diagrams_section fs diags) = true)
    ∧ (∀ (label : Str) (i : Nat) (d : Descriptor),
        fs.pathExists d.path = false ∨ ¬ path_suffix d.path = (".svg".data) →
        report_item fs label (i, d) = []) := by
  refine ⟨?_, ?_, ?_⟩
  · intro figs i d hget hex hsvg
    have hitem : report_item fs (("Figure").data) (i, d)
        = report_figure (("Figure").data) (i + 1) (svg_to_data_uri fs d.path) d.caption := by
      simp [report_item, hex, hsvg]
    refine ⟨hitem, ?_⟩
    have hmem : (i, d) ∈ figs.enum := List.mk_mem_enum_iff_get?.mpr hget
    have hmem2 : report_item fs (("Figure").data) (i, d)
        ∈ (figs.enum).map (report_item fs (("Figure").data)) :=
      List.mem_map_of_mem _ hmem
    rw [hitem] at hmem2
    have hne : figs.isEmpty = false := by
      cases figs with
      | nil => simp at hget
      | cons a l => rfl
    unfold images_section
    rw [if_neg (by simp [hne])]
    exact occursIn_flatten hmem2 _ _
  · intro diags j d hget hex hsvg
    have hitem : report_item fs (("Diagram").data) (j, d)
        = report_figure (("Diagram").data) (j + 1) (svg_to_data_uri fs d.path) d.caption := by
      simp [report_item, hex, hsvg]
    refine ⟨hitem, ?_⟩
    have hmem : (j, d) ∈ diags.enum := List.mk_mem_enum_iff_get?.mpr hget
    have hmem2 : report_item fs (("Diagram").data) (j, d)
        ∈ (diags.enum).map (report_item fs (("Diagram").data)) :=
      List.mem_map_of_mem _ hmem
    rw [hitem] at hmem2
    have hne : diags.isEmpty = false := by
      cases diags with
      | nil => simp at hget
      | cons a l => rfl
    unfold diagrams_section
    rw [if_neg (by simp [hne])]
    exact occursIn_flatten hmem2 _ _
  · intro label i d hskip
    rcases hskip with h1 | h1
    · simp [report_item, h1]
    · by_cases h2 : fs.pathExists d.path = true
      · simp [report_item, h1, h2]
      · simp [report_item, h2]

/-- Witness for C9 (amended): a concrete existing `.svg` descriptor is
embedded as Figure 1 of the Figures section and as Diagram 1 of the Diagrams
section. -/
theorem report_sections_svg_only_witness :
    occursIn
      (report_figure (("Figure").data) 1 (svg_to_data_uri fs_svg (("d.svg").data)) (("Cap").data))
      (images_section fs_svg [⟨("d.svg").data, ("Cap").data⟩]) = true
    ∧ occursIn
      (report_figure (("Diagram").data) 1 (svg_to_data_uri fs_svg (("d.svg").data)) (("Cap").data))
      (diagrams_section fs_svg [⟨("d.svg").data, ("Cap").data⟩]) = true :=
  ⟨((report_sections_svg_only fs_svg).1 [⟨("d.svg").data, ("Cap").data⟩] 0
      ⟨("d.svg").data, ("Cap").data⟩ (by decide) (by decide) (by decide)).2,
   ((report_sections_svg_only fs_svg).2.1 [⟨("d.svg").data, ("Cap").data⟩] 0
      ⟨("d.svg").data, ("Cap").data⟩ (by decide) (by decide) (by decide)).2⟩

/-! ## Claim C6: stability of the TOC extractor on its own output -/

theorem takeWhile_append_all {p : Char → Bool} {l : Str}
    (h : ∀ x ∈ l, p x = true) (r : Str) :
    (l ++ r).takeWhile p = l ++ r.takeWhile p := by
  induction l with
  | nil => simp
  | cons c cs ih =>
    rw [List.cons_append, List.takeWhile_cons, if_pos (h c (by simp)),
      ih (fun x hx => h x (by simp [hx]))]
    rfl

theorem dropWhile_append_all {p : Char → Bool} {l : Str}
    (h : ∀ x ∈ l, p x = true) (r : Str) :
    (l ++ r).dropWhile p = r.dropWhile p := by
  induction l with
  | nil => simp
  | cons c cs ih =>
    rw [List.cons_append, List.dropWhile_cons, if_pos (h c (by simp))]
    exact ih (fun x hx => h x (by simp [hx]))

theorem mem_of_mem_dropWhile {p : Char → Bool} {l : Str} {x : Char}
    (h : x ∈ l.dropWhile p) : x ∈ l := by
  induction l with
  | nil => simpa using h
  | cons c cs ih =>
    rw [List.dropWhile_cons] at h
    by_cases hc : p c
    · rw [if_pos hc] at h
      exact List.mem_cons_of_mem c (ih h)
    · rw [if_neg hc] at h
      exact h

theorem dropWhile_append_cons {p : Char → Bool} {l : Str} {d : Char} {R : Str}
    (h : l.dropWhile p = d :: R) (r : Str) :
    (l ++ r).dropWhile p = d :: (R ++ r) := by
  induction l with
  | nil => simp at h
  | cons c cs ih =>
    rw [List.dropWhile_cons] at h
    by_cases hc : p c
    · rw [if_pos hc] at h
      rw [List.cons_append, List.dropWhile_cons, if_pos hc]
      exact ih h
    · rw [if_neg hc] at h
      injection h with h1 h2
      rw [List.cons_append, List.dropWhile_cons, if_neg hc, h1, h2]

theorem splitOnChar_ne_nil (sep : Char) : ∀ s : Str, splitOnChar sep s ≠ []
  | [] => by simp [splitOnChar]
  | c :: cs => by
    unfold splitOnChar
    by_cases h : c = sep
    · simp [h]
    · rw [if_neg h]
      cases hs : splitOnChar sep cs <;> simp

theorem splitOnChar_not_mem (sep : Char) :
    ∀ s : Str, ∀ piece ∈ splitOnChar sep s, sep ∉ piece
  | [] => by
    intro piece hp
    simp [splitOnChar] at hp
    simp [hp]
  | c :: cs => by
    intro piece hp
    unfold splitOnChar at hp
    by_cases h : c = sep
    · rw [if_pos h] at hp
      rcases List.mem_cons.mp hp with h1 | h1
      · simp [h1]
      · exact splitOnChar_not_mem sep cs piece h1
    · rw [if_neg h] at hp
      cases hs : splitOnChar sep cs with
      | nil => exact absurd hs (splitOnChar_ne_nil sep cs)
      | cons t ts =>
        rw [hs] at hp
        rcases List.mem_cons.mp hp with h1 | h1
        · subst h1
          intro hmem
          rcases List.mem_cons.mp hmem with h2 | h2
          · exact h h2.symm
          · exact splitOnChar_not_mem sep cs t (by rw [hs]; simp) h2
        · exact splitOnChar_not_mem sep cs piece (by rw [hs]; simp [h1])

theorem splitOnChar_of_not_mem (sep : Char) : ∀ x : Str, sep ∉ x → splitOnChar sep x = [x] := by
  intro x
  induction x with
  | nil => intro _; rfl
  | cons c cs ih =>
    intro h
    unfold splitOnChar
    rw [if_neg (fun hc => h (by simp [hc])), ih (fun hm => h (by simp [hm]))]

theorem splitOnChar_append_sep (sep : Char) : ∀ x : Str, sep ∉ x → ∀ z : Str,
    splitOnChar sep (x ++ sep :: z) = x :: splitOnChar sep z := by
  intro x
  induction x with
  | nil =>
    intro _ z
    show splitOnChar sep (sep :: z) = [] :: splitOnChar sep z
    conv_lhs => unfold splitOnChar
    rw [if_pos rfl]
  | cons c cs ih =>
    intro h z
    show splitOnChar sep (c :: (cs ++ sep :: z)) = (c :: cs) :: splitOnChar sep z
    conv_lhs => unfold splitOnChar
    rw [if_neg (fun hc => h (by simp [hc])), ih (fun hm => h (by simp [hm])) z]

theorem splitOnChar_joinWith (sep : Char) : ∀ ls : List Str, ls ≠ [] →
    (∀ l ∈ ls, sep ∉ l) → splitOnChar sep (joinWith [sep] ls) = ls
  | [] => fun h _ => absurd rfl h
  | [x] => fun _ h => by
    show splitOnChar sep (joinWith [sep] [x]) = [x]
    rw [show joinWith [sep] [x] = x from rfl]
    exact splitOnChar_of_not_mem sep x (h x (by simp))
  | x :: y :: rest => fun _ h => by
    show splitOnChar sep (joinWith [sep] (x :: y :: rest)) = x :: y :: rest
    rw [show joinWith [sep] (x :: y :: rest) = x ++ [sep] ++ joinWith [sep] (y :: rest) from rfl]
    rw [List.append_assoc, List.singleton_append]
    rw [splitOnChar_append_sep sep x (h x (by simp)) _]
    rw [splitOnChar_joinWith sep (y :: rest) (by simp)
      (fun l hl => h l (List.mem_cons_of_mem x hl))]

/-- The anchor annotation (with its separating space) that `generate_toc`
appends to a rewritten header: `' {#' + anchor + '}'`. -/
def anchor_tag (A : Str) : Str := ' ' :: lbrace :: '#' :: (A ++ [rbrace])

theorem rewrite_header_line_eq (e : TocEntry) :
    rewrite_header_line e
      = List.replicate e.level '#'
          ++ (' ' :: (e.titleClean ++ anchor_tag e.anchor)) := by
  unfold rewrite_header_line anchor_tag
  simp [List.append_assoc]

theorem anchor_close_tag {A : Str} (hne : A ≠ []) (hnr : rbrace ∉ A) :
    anchor_close (A ++ [rbrace]) = some [] := by
  have hall : ∀ x ∈ A, (decide (x ≠ rbrace)) = true := by
    intro x hx
    simp
    exact fun he => hnr (he ▸ hx)
  have hdw : (A ++ [rbrace]).dropWhile (fun c => decide (c ≠ rbrace)) = [rbrace] := by
    rw [dropWhile_append_all hall, List.dropWhile_cons, if_neg (by decide)]
  have htw : (A ++ [rbrace]).takeWhile (fun c => decide (c ≠ rbrace)) = A := by
    rw [takeWhile_append_all hall, List.takeWhile_cons, if_neg (by decide), List.append_nil]
  have hie : A.isEmpty = false := by
    cases A with
    | nil => exact absurd rfl hne
    | cons a l => rfl
  unfold anchor_close
  split
  · next heq =>
    rw [hdw] at heq
    simp at heq
  · next y rest heq =>
    rw [hdw] at heq
    injection heq with h1 h2
    subst h2
    rw [if_neg (by rw [htw, hie]; exact Bool.false_ne_true)]

theorem anchor_tag_try {A : Str} (hne : A ≠ []) (hnr : rbrace ∉ A) :
    try_anchor (' ' :: lbrace :: '#' :: (A ++ [rbrace])) = some [] := by
  have hdw : (' ' :: lbrace :: '#' :: (A ++ [rbrace]) : Str).dropWhile isPySpace
      = lbrace :: '#' :: (A ++ [rbrace]) := by
    rw [List.dropWhile_cons, if_pos (by decide : isPySpace ' ' = true),
      List.dropWhile_cons, if_neg (by decide : ¬ isPySpace lbrace = true)]
  unfold try_anchor
  rw [hdw]
  simp [anchor_close_tag hne hnr]

/-- Stripping anchors from a clean title followed by its own annotation gives
back the title: the `\s*\{#[^}]+\}` pattern consumes exactly the appended
annotation, provided the title carries no `{` and does not end in whitespace
and the anchor is nonempty without `}`. -/
theorem strip_anchors_append_tag :
    ∀ (T : Str), lbrace ∉ T →
      (∀ c, T.getLast? = some c → isPySpace c = false) →
      ∀ (A : Str), A ≠ [] → rbrace ∉ A →
      strip_anchors (T ++ anchor_tag A) = T := by
  intro T
  induction T with
  | nil =>
    intro _ _ A hne hnr
    show strip_anchors (' ' :: lbrace :: '#' :: (A ++ [rbrace])) = []
    rw [strip_anchors_some (anchor_tag_try hne hnr)]
    exact strip_anchors_nil
  | cons c T1 ih =>
    intro hlb hlast A hne hnr
    have hTne : (c :: T1 : Str) ≠ [] := by simp
    have hdwne : (c :: T1 : Str).dropWhile isPySpace ≠ [] := by
      intro hnil
      rw [List.dropWhile_eq_nil_iff] at hnil
      have hl1 : (c :: T1 : Str).getLast? = some ((c :: T1 : Str).getLast hTne) :=
        List.getLast?_eq_getLast _ hTne
      have hl2 := hlast _ hl1
      have hl3 := hnil _ (List.getLast_mem hTne)
      rw [hl2] at hl3
      exact Bool.false_ne_true hl3
    obtain ⟨d, R, hdR⟩ : ∃ d R, (c :: T1 : Str).dropWhile isPySpace = d :: R := by
      cases hh : (c :: T1 : Str).dropWhile isPySpace with
      | nil => exact absurd hh hdwne
      | cons d R => exact ⟨d, R, rfl⟩
    have hdmem : d ∈ (c :: T1 : Str) := mem_of_mem_dropWhile (by rw [hdR]; simp)
    have hdlb : d ≠ lbrace := fun he => hlb (he ▸ hdmem)
    have hdw2 : (c :: (T1 ++ anchor_tag A) : Str).dropWhile isPySpace
        = d :: (R ++ anchor_tag A) := by
      rw [← List.cons_append]
      exact dropWhile_append_cons hdR _
    obtain ⟨b, u, hbu⟩ : ∃ b u, (R ++ anchor_tag A : Str) = b :: u := by
      cases R with
      | nil => exact ⟨' ', _, rfl⟩
      | cons e R1 => exact ⟨e, _, rfl⟩
    have hta : try_anchor (c :: (T1 ++ anchor_tag A)) = none := by
      unfold try_anchor
      rw [hdw2, hbu]
      simp [hdlb]
    rw [List.cons_append, strip_anchors_none hta]
    rw [ih (fun hm => hlb (List.mem_cons_of_mem c hm)) ?hl A hne hnr]
    case hl =>
      intro c2 hc2
      cases T1 with
      | nil => simp at hc2
      | cons t T2 =>
        exact hlast c2 (by rw [List.getLast?_cons_cons]; exact hc2)

theorem pyStrip_tag {T : Str} {t : Char} (hh : T.head? = some t)
    (hws : isPySpace t = false) (A : Str) :
    pyStrip (' ' :: (T ++ anchor_tag A)) = T ++ anchor_tag A := by
  cases T with
  | nil => simp at hh
  | cons t1 T1 =>
    have ht : t1 = t := by simpa using hh
    subst ht
    unfold pyStrip
    rw [List.dropWhile_cons, if_pos (by decide : isPySpace ' ' = true)]
    rw [List.cons_append, List.dropWhile_cons, if_neg (by simp [hws])]
    have hsplit2 : (t1 :: (T1 ++ anchor_tag A) : Str)
        = (t1 :: (T1 ++ (' ' :: lbrace :: '#' :: A))) ++ [rbrace] := by
      simp [anchor_tag]
    rw [hsplit2, List.reverse_append,
      show (([rbrace] : Str).reverse) = [rbrace] from rfl, List.singleton_append]
    rw [List.dropWhile_cons, if_neg (by decide : ¬ isPySpace rbrace = true)]
    rw [List.reverse_cons, List.reverse_reverse]

/-- The per-entry condition under which the extractor reproduces itself: the
header level qualifies, the cleaned title is nonempty, starts and ends in
non-whitespace, and carries no `{` and no newline, and the assigned anchor is
nonempty and carries no `}` and no newline.  (All of this holds for ordinary
headers; the C6 counterexample violates it through titles whose slug is
empty or already ends in `-N`.) -/
def EntryOk (e : TocEntry) : Prop :=
  (e.level = 2 ∨ e.level = 3) ∧
  e.titleClean ≠ [] ∧
  isPySpace (e.titleClean.headD 'x') = false ∧
  isPySpace (e.titleClean.getLastD 'x') = false ∧
  lbrace ∉ e.titleClean ∧
  '\n' ∉ e.titleClean ∧
  e.anchor ≠ [] ∧
  rbrace ∉ e.anchor ∧
  '\n' ∉ e.anchor

instance entryOk_decidable (e : TocEntry) : Decidable (EntryOk e) := by
  unfold EntryOk
  infer_instance

theorem entryOk_last {e : TocEntry} (h : EntryOk e) :
    ∀ c, e.titleClean.getLast? = some c → isPySpace c = false := by
  obtain ⟨_, _, _, hLast, _⟩ := h
  intro c hc
  rw [List.getLastD_eq_getLast?, hc] at hLast
  simpa using hLast

theorem entryOk_strip {e : TocEntry} (h : EntryOk e) :
    strip_anchors (e.titleClean ++ anchor_tag e.anchor) = e.titleClean := by
  have hlast := entryOk_last h
  obtain ⟨_, _, _, _, hTlb, _, hAne, hArb, _⟩ := h
  exact strip_anchors_append_tag e.titleClean hTlb hlast e.anchor hAne hArb

/-- The rewritten header line of a well-behaved entry matches the header
regex again on the second run, with the bound annotation still in the title
group (stripped whitespace included). -/
theorem header_match_rewrite {e : TocEntry} (hok : EntryOk e) :
    header_match (rewrite_header_line e)
      = some (e.level, e.titleClean ++ anchor_tag e.anchor) := by
  obtain ⟨hlvl, hTne, hHead, _, _, _, _, _, _⟩ := hok
  obtain ⟨t, T1, hT⟩ : ∃ t T1, e.titleClean = t :: T1 := by
    cases hc : e.titleClean with
    | nil => exact absurd hc hTne
    | cons t T1 => exact ⟨t, T1, rfl⟩
  have hHt : isPySpace t = false := by
    rw [hT] at hHead
    simpa using hHead
  have hall : ∀ x ∈ List.replicate e.level '#', decide (x = '#') = true := by
    intro x hx
    rw [List.eq_of_mem_replicate hx]
    decide
  have h1 : (List.replicate e.level '#'
      ++ (' ' :: (e.titleClean ++ anchor_tag e.anchor))).takeWhile (· = '#')
      = List.replicate e.level '#' := by
    rw [takeWhile_append_all hall, List.takeWhile_cons, if_neg (by decide), List.append_nil]
  have h2 : (List.replicate e.level '#'
      ++ (' ' :: (e.titleClean ++ anchor_tag e.anchor))).drop e.level
      = ' ' :: (e.titleClean ++ anchor_tag e.anchor) := by
    have h3 := List.drop_left (List.replicate e.level '#')
      (' ' :: (e.titleClean ++ anchor_tag e.anchor))
    rwa [List.length_replicate] at h3
  have hcond1 : (decide (e.level = 2) || decide (e.level = 3)) = true := by
    rcases hlvl with h | h <;> simp [h]
  have hlen : decide
      (2 ≤ (' ' :: (e.titleClean ++ anchor_tag e.anchor) : Str).length) = true := by
    rw [decide_eq_true_eq, hT]
    simp only [anchor_tag, List.length_cons, List.length_append]
    omega
  rw [rewrite_header_line_eq]
  simp only [header_match]
  rw [h1, List.length_replicate, h2]
  split
  · rw [pyStrip_tag (show e.titleClean.head? = some t by rw [hT]; rfl) hHt e.anchor]
  · next hfalse =>
    exfalso
    apply hfalse
    rw [hcond1, hlen]
    rfl

theorem toc_go_snd_length : ∀ (lines : List Str) (counts : Counts),
    (toc_go counts lines).2.length = lines.length := by
  intro lines
  induction lines with
  | nil => intro counts; rfl
  | cons line rest ih =>
    intro counts
    cases hm : header_match line with
    | none =>
      rw [toc_go_cons_none counts rest hm]
      simp [ih counts]
    | some p =>
      obtain ⟨k, title⟩ := p
      rw [toc_go_cons_some counts rest hm]
      simp [ih (toc_counts_after counts title)]

theorem toc_go_nl_free : ∀ (lines : List Str) (counts : Counts),
    (∀ l ∈ lines, '\n' ∉ l) →
    (∀ e ∈ (toc_go counts lines).1, EntryOk e) →
    ∀ l ∈ (toc_go counts lines).2, '\n' ∉ l := by
  intro lines
  induction lines with
  | nil =>
    intro counts _ _ l hl
    simp [toc_go] at hl
  | cons line rest ih =>
    intro counts hnl hok l hl
    cases hm : header_match line with
    | none =>
      rw [toc_go_cons_none counts rest hm] at hl
      rcases List.mem_cons.mp hl with h1 | h1
      · subst h1
        exact hnl _ (by simp)
      · exact ih counts (fun x hx => hnl x (by simp [hx]))
          (fun e he => hok e (by rw [toc_go_cons_none counts rest hm]; exact he)) l h1
    | some p =>
      obtain ⟨k, title⟩ := p
      rw [toc_go_cons_some counts rest hm] at hl
      rcases List.mem_cons.mp hl with h1 | h1
      · subst h1
        have hoke : EntryOk (toc_entry_of counts k title) := by
          apply hok
          rw [toc_go_cons_some counts rest hm]
          simp
        obtain ⟨_, _, _, _, _, hTnl, _, _, hAnl⟩ := hoke
        rw [rewrite_header_line_eq]
        intro hmem
        rcases List.mem_append.mp hmem with h2 | h2
        · exact absurd (List.eq_of_mem_replicate h2) (by decide)
        · rcases List.mem_cons.mp h2 with h3 | h3
          · exact absurd h3 (by decide)
          · rcases List.mem_append.mp h3 with h4 | h4
            · exact hTnl h4
            · unfold anchor_tag at h4
              rcases List.mem_cons.mp h4 with h5 | h5
              · exact absurd h5 (by decide)
              · rcases List.mem_cons.mp h5 with h6 | h6
                · exact absurd h6 (by decide)
                · rcases List.mem_cons.mp h6 with h7 | h7
                  · exact absurd h7 (by decide)
                  · rcases List.mem_append.mp h7 with h8 | h8
                    · exact hAnl h8
                    · rcases List.mem_cons.mp h8 with h9 | h9
                      · exact absurd h9 (by decide)
                      · simp at h9
      · exact ih (toc_counts_after counts title) (fun x hx => hnl x (by simp [hx]))
          (fun e he => hok e (by rw [toc_go_cons_some counts rest hm]; simp [he])) l h1

theorem toc_entry_of_congr (counts : Counts) (k : Nat) {t1 t2 : Str}
    (h : strip_anchors t1 = strip_anchors t2) :
    toc_entry_of counts k t1 = toc_entry_of counts k t2 := by
  unfold toc_entry_of
  rw [h]

theorem toc_counts_after_congr (counts : Counts) {t1 t2 : Str}
    (h : strip_anchors t1 = strip_anchors t2) :
    toc_counts_after counts t1 = toc_counts_after counts t2 := by
  unfold toc_counts_after
  rw [h]

/-- The key induction for C6: re-running the per-line loop of `generate_toc`
on the lines it produced, from the same (empty) counter state, reproduces the
same entries and the same lines, provided every produced entry is
well-behaved. -/
theorem toc_go_idem : ∀ (lines : List Str) (counts : Counts),
    (∀ e ∈ (toc_go counts lines).1, EntryOk e) →
    toc_go counts ((toc_go counts lines).2) = toc_go counts lines := by
  intro lines
  induction lines with
  | nil =>
    intro counts _
    rfl
  | cons line rest ih =>
    intro counts hok
    cases hm : header_match line with
    | none =>
      have hok2 : ∀ e ∈ (toc_go counts rest).1, EntryOk e := by
        intro e he
        exact hok e (by rw [toc_go_cons_none counts rest hm]; exact he)
      simp only [toc_go_cons_none counts rest hm]
      rw [toc_go_cons_none counts ((toc_go counts rest).2) hm]
      rw [ih counts hok2]
    | some p =>
      obtain ⟨k, title⟩ := p
      have hoke : EntryOk (toc_entry_of counts k title) := by
        apply hok
        rw [toc_go_cons_some counts rest hm]
        simp
      have hokrest : ∀ e2 ∈ (toc_go (toc_counts_after counts title) rest).1, EntryOk e2 := by
        intro e2 he2
        apply hok
        rw [toc_go_cons_some counts rest hm]
        simp [he2]
      have hm2 : header_match (rewrite_header_line (toc_entry_of counts k title))
          = some (k, (toc_entry_of counts k title).titleClean
              ++ anchor_tag (toc_entry_of counts k title).anchor) :=
        header_match_rewrite hoke
      have hestrip : strip_anchors ((toc_entry_of counts k title).titleClean
          ++ anchor_tag (toc_entry_of counts k title).anchor)
          = strip_anchors title := entryOk_strip hoke
      simp only [toc_go_cons_some counts rest hm]
      rw [toc_go_cons_some counts ((toc_go (toc_counts_after counts title) rest).2) hm2]
      rw [toc_entry_of_congr counts k hestrip, toc_counts_after_congr counts hestrip,
        ih (toc_counts_after counts title) hokrest]

/-- C6 (amended): running the TOC extractor a second time on the rewritten
text it produced reproduces exactly the same entries — same cleaned titles,
same base slugs, same anchors — so no duplicate anchors beyond those of the
first run are introduced, provided every entry of the first run is
well-behaved (`EntryOk`: qualifying level, nonempty cleaned title that does
not start or end in whitespace and carries no `\x7b` and no newline, nonempty
anchor without `\x7d` or newline).  The unconditional claim is refuted by
`toc_second_run_counterexample`, whose titles yield an empty slug or a slug
already ending in `-1`. -/
theorem toc_second_run_stable (md : Str)
    (hok : ∀ e ∈ toc_entries md, EntryOk e) :
    toc_entries ((generate_toc md).2) = toc_entries md := by
  by_cases hemp : (toc_entries md).isEmpty
  · rw [show (generate_toc md).2 = md from by simp [generate_toc, hemp]]
  · have h2 : (generate_toc md).2 = joinWith (("\n").data) (toc_mod_lines md) := by
      simp [generate_toc, hemp]
    rw [h2]
    have hpieces : ∀ l ∈ splitOnChar '\n' md, '\n' ∉ l := splitOnChar_not_mem '\n' md
    have hoklines : ∀ e ∈ (toc_go [] (splitOnChar '\n' md)).1, EntryOk e := hok
    have hnl : ∀ l ∈ toc_mod_lines md, '\n' ∉ l := fun l hl =>
      toc_go_nl_free (splitOnChar '\n' md) [] hpieces hoklines l hl
    have hne : toc_mod_lines md ≠ [] := by
      intro hnil
      have h3 := toc_go_snd_length (splitOnChar '\n' md) []
      rw [show (toc_go [] (splitOnChar '\n' md)).2 = toc_mod_lines md from rfl, hnil] at h3
      exact splitOnChar_ne_nil '\n' md (List.length_eq_zero.mp h3.symm)
    have hsplit : splitOnChar '\n' (joinWith (("\n").data) (toc_mod_lines md))
        = toc_mod_lines md :=
      splitOnChar_joinWith '\n' (toc_mod_lines md) hne hnl
    unfold toc_entries
    rw [hsplit]
    rw [show toc_mod_lines md = (toc_go [] (splitOnChar '\n' md)).2 from rfl]
    rw [toc_go_idem (splitOnChar '\n' md) [] hoklines]

/-- Witness for C6 (amended) on a document with a repeated title: the second
run reproduces the first run's entries (anchors `alpha`, `beta`, `alpha-1`). -/
theorem toc_second_run_stable_witness :
    toc_entries ((generate_toc (("## Alpha\n### Beta\n## Alpha").data)).2)
      = toc_entries (("## Alpha\n### Beta\n## Alpha").data) :=
  toc_second_run_stable (("## Alpha\n### Beta\n## Alpha").data) (by decide)

